import Mathlib

/-!
Verification of the AI-Town simulation kernel (a shallow embedding of the
Python sources under ai_town/).  Machine floats are modelled as rationals
where the program only does field arithmetic and comparisons, and as reals
where it calls transcendental functions (math.exp, math.sqrt).  Python
datetimes are modelled as rational numbers of seconds; dict-valued records
are modelled as structures with one constructor per construction site.
-/

/-- Seconds-based clock: GameTime.minutes_since (core/time_manager.py). -/
def minutesSince (now past : ℚ) : ℚ := (now - past) / 60

/-- GameTime.hours_since (core/time_manager.py). -/
def hoursSince (now past : ℚ) : ℚ := minutesSince now past / 60

/-- GameTime.get_time_of_day (core/time_manager.py): the hour is taken from
the current clock reading (seconds since a midnight-aligned origin). -/
def getTimeOfDay (now : ℚ) : String :=
  let hour : ℤ := ⌊now / 3600⌋ % 24
  if 6 ≤ hour ∧ hour < 12 then "morning"
  else if 12 ≤ hour ∧ hour < 18 then "afternoon"
  else if 18 ≤ hour ∧ hour < 22 then "evening"
  else "night"

/-- Position (agents/base_agent.py). -/
structure Position where
  x : ℚ
  y : ℚ
  area : String := "unknown"
  deriving DecidableEq, Repr

/-- Position.distance_to: ((dx)**2 + (dy)**2) ** 0.5. -/
noncomputable def distanceTo (p q : Position) : ℝ :=
  Real.sqrt (((p.x : ℝ) - q.x) ^ 2 + ((p.y : ℝ) - q.y) ^ 2)

/-- Observation (agents/base_agent.py). -/
structure Observation where
  timestamp : ℚ
  observerId : String
  eventType : String
  description : String
  location : Position
  participants : List String := []
  importance : ℚ := 1
  deriving DecidableEq, Repr

/-- Memory metadata, one variant per construction site in
agents/memory/memory_stream.py: add_observation builds an event-typed
record, add_reflection tags type=reflection. -/
inductive MemMeta where
  | obs (eventType : String) (location : Position) (participants : List String)
      (observerId : String)
  | reflection
  deriving DecidableEq, Repr

/-- Memory (agents/memory/memory_stream.py). -/
structure Memory where
  id : String
  timestamp : ℚ
  description : String
  importance : ℚ
  accessCount : ℕ := 0
  lastAccessed : Option ℚ := none
  keywords : List String := []
  metadata : MemMeta
  deriving DecidableEq, Repr

/-- The stop-word set of MemoryStream._extract_keywords. -/
def stopWords : List String :=
  ["i", "me", "my", "myself", "we", "our", "ours", "ourselves", "you", "your",
   "yours", "yourself", "yourselves", "he", "him", "his", "himself", "she",
   "her", "hers", "herself", "it", "its", "itself", "they", "them", "their",
   "theirs", "themselves", "what", "which", "who", "whom", "this", "that",
   "these", "those", "am", "is", "are", "was", "were", "be", "been", "being",
   "have", "has", "had", "having", "do", "does", "did", "doing", "a", "an",
   "the", "and", "but", "if", "or", "because", "as", "until", "while", "of",
   "at", "by", "for", "with", "through", "during", "before", "after", "above",
   "below", "up", "down", "in", "out", "on", "off", "over", "under", "again",
   "further", "then", "once"]

/-- MemoryStream._extract_keywords: lower-case, replace non-word characters
by spaces, split, drop words of length at most 2 and stop words, and
deduplicate (Python builds list(set(words)); the resulting order is
unspecified there, here normalised by List.dedup). -/
def extractKeywords (text : String) : List String :=
  let lowered := text.toLower
  let cleaned := lowered.map (fun c => if c.isAlphanum || c = '_' then c else ' ')
  let words := (cleaned.split (· = ' ')).filter (· ≠ "")
  (words.filter (fun w => 2 < w.length ∧ w ∉ stopWords)).dedup

/-- Memory.get_recency_score: exp(-hours_ago / 24). -/
noncomputable def getRecencyScore (now : ℚ) (m : Memory) : ℝ :=
  Real.exp (-(hoursSince now m.timestamp : ℝ) / 24)

/-- Memory.get_importance_score: importance / 10. -/
def getImportanceScore (m : Memory) : ℚ := m.importance / 10

/-- Memory.get_relevance_score: Jaccard similarity of keyword sets, 0 when
either set is empty or the intersection is empty. -/
def getRelevanceScore (m : Memory) (queryKeywords : List String) : ℚ :=
  if queryKeywords = [] ∨ m.keywords = [] then 0
  else
    let common := m.keywords.toFinset ∩ queryKeywords.toFinset
    if common = ∅ then 0
    else (common.card : ℚ) / ((m.keywords.toFinset ∪ queryKeywords.toFinset).card : ℚ)

/-- Memory.get_retrieval_score: alpha*recency + beta*importance +
gamma*relevance with all three weights 1.0. -/
noncomputable def getRetrievalScore (now : ℚ) (m : Memory) (queryKeywords : List String) : ℝ :=
  1 * getRecencyScore now m + 1 * (getImportanceScore m : ℝ) +
    1 * (getRelevanceScore m queryKeywords : ℝ)

/-- MemoryStream (agents/memory/memory_stream.py); importance_sum starts at
0, reflection_threshold at 150.  Disk persistence is an excluded
collaborator and is not modelled (an in-memory stream, persistence off). -/
structure MemoryStream where
  agentId : String
  observations : List Memory := []
  reflections : List Memory := []
  reflectionThreshold : ℚ := 150
  importanceSum : ℚ := 0
  deriving DecidableEq, Repr

/-- MemoryStream.__init__ for a fresh agent. -/
def mkMemoryStream (agentId : String) : MemoryStream := { agentId := agentId }

/-- MemoryStream.add_observation: converts the Observation to a Memory,
appends it to the observation log and adds its importance to
importance_sum; returns the new memory id. -/
def addObservation (ms : MemoryStream) (o : Observation) : String × MemoryStream :=
  let m : Memory :=
    { id := ms.agentId ++ "_obs_" ++ toString ms.observations.length
      timestamp := o.timestamp
      description := o.description
      importance := o.importance
      keywords := extractKeywords o.description
      metadata := .obs o.eventType o.location o.participants o.observerId }
  (m.id, { ms with
            observations := ms.observations ++ [m]
            importanceSum := ms.importanceSum + m.importance })

/-- MemoryStream.add_reflection: stores the insight (timestamped with the
GameTime.now() reading, made explicit here) in the reflection log tagged
type=reflection; note that, unlike add_observation, it does not touch
importance_sum. -/
def addReflection (ms : MemoryStream) (now : ℚ) (insight : String) (importance : ℚ := 8) :
    String × MemoryStream :=
  let m : Memory :=
    { id := ms.agentId ++ "_refl_" ++ toString ms.reflections.length
      timestamp := now
      description := insight
      importance := importance
      keywords := extractKeywords insight
      metadata := .reflection }
  (m.id, { ms with reflections := ms.reflections ++ [m] })

/-- MemoryStream.should_reflect: importance_sum >= reflection_threshold. -/
def shouldReflect (ms : MemoryStream) : Bool := ms.reflectionThreshold ≤ ms.importanceSum

/-- MemoryStream.reset_importance_sum. -/
def resetImportanceSum (ms : MemoryStream) : MemoryStream := { ms with importanceSum := 0 }

/-- The combined memory log observations + reflections scanned by
retrieve_relevant. -/
def allMemories (ms : MemoryStream) : List Memory := ms.observations ++ ms.reflections

/-- Indexed enumeration of a list (Python enumerate): positions identify the
individual memory objects that retrieval mutates in place. -/
def withIdx : List α → ℕ → List (ℕ × α)
  | [], _ => []
  | a :: l, n => (n, a) :: withIdx l (n + 1)

/-- Updating access bookkeeping on a retrieved memory: access_count += 1,
last_accessed = now. -/
def bumpMemory (now : ℚ) (m : Memory) : Memory :=
  { m with accessCount := m.accessCount + 1, lastAccessed := some now }

/-- A scored entry of retrieve_relevant: retrieval score, the position of
the memory in observations ++ reflections, and the memory itself. -/
abbrev ScoredMem := ℝ × ℕ × Memory

/-- Descending comparison on scores used for scored_memories.sort
(reverse=True). -/
def scoreDesc (a b : ScoredMem) : Prop := b.1 ≤ a.1

noncomputable instance scoreDescDecidable : DecidableRel scoreDesc :=
  fun _ _ => Classical.propDecidable _

instance scoreDescTotal : IsTotal ScoredMem scoreDesc :=
  ⟨fun a b => (le_total b.1 a.1).imp (fun h => h) (fun h => h)⟩

instance scoreDescTrans : IsTrans ScoredMem scoreDesc :=
  ⟨fun _ _ _ h1 h2 => le_trans h2 h1⟩

/-- The scored memory list built by retrieve_relevant before sorting. -/
noncomputable def scoredMemories (ms : MemoryStream) (qk : List String) (now : ℚ) :
    List ScoredMem :=
  (withIdx (allMemories ms) 0).map (fun p => (getRetrievalScore now p.2 qk, p.1, p.2))

/-- scored_memories.sort(key=score, reverse=True): a stable descending
sort. -/
noncomputable def sortedScoredMemories (ms : MemoryStream) (qk : List String) (now : ℚ) :
    List ScoredMem :=
  (scoredMemories ms qk now).insertionSort scoreDesc

/-- The entries retrieval returns: the first limit entries of the sorted
list, keeping only those with score > 0. -/
noncomputable def pickedScored (ms : MemoryStream) (qk : List String) (now : ℚ) (limit : ℕ) :
    List ScoredMem :=
  ((sortedScoredMemories ms qk now).take limit).filter
    (fun t => @decide (0 < t.1) (Classical.propDecidable _))

/-- MemoryStream.retrieve_relevant: scores every memory in
observations ++ reflections, sorts descending, returns up to limit
memories with positive score, bumping access_count/last_accessed on each
returned memory (and only on those). -/
noncomputable def retrieveRelevant (ms : MemoryStream) (query : String) (limit : ℕ)
    (now : ℚ) : List Memory × MemoryStream :=
  let qk := extractKeywords query
  let picked := pickedScored ms qk now limit
  let pickedIdx := picked.map (fun t => t.2.1)
  let updAll := (withIdx (allMemories ms) 0).map
    (fun p : ℕ × Memory => if p.1 ∈ pickedIdx then bumpMemory now p.2 else p.2)
  (picked.map (fun t => bumpMemory now t.2.2),
   { ms with
      observations := updAll.take ms.observations.length
      reflections := updAll.drop ms.observations.length })

/-- Goal (agents/planning/planner.py). -/
structure Goal where
  id : String
  description : String
  priority : ℚ
  deadline : Option ℚ := none
  isActive : Bool := true
  progress : ℚ := 0
  deriving DecidableEq, Repr

/-- The loosely-typed action dictionary (a plan step, a step result, or an
error record): one optional field per key used by the sources. -/
structure AgentAction where
  type : String
  targetAgent : Option String := none
  message : Option String := none
  position : Option Position := none
  targetPosition : Option Position := none
  duration : Option ℚ := none
  workType : Option String := none
  activity : Option String := none
  description : Option String := none
  completed : Bool := false
  errorMsg : Option String := none
  deriving DecidableEq, Repr

/-- Plan (agents/planning/planner.py). -/
structure Plan where
  id : String
  goalId : String
  description : String
  actions : List AgentAction
  createdAt : ℚ
  status : String := "active"
  deriving DecidableEq, Repr

/-- The needs dictionary produced by ActionPlanner._assess_needs, with its
five fixed keys in insertion order energy, social, work, exploration,
maintenance. -/
structure Needs where
  energy : ℚ := 0
  social : ℚ := 0
  work : ℚ := 0
  exploration : ℚ := 0
  maintenance : ℚ := 0
  deriving DecidableEq, Repr

/-- ActionPlanner._initialize_basic_goals: the fixed starter goal set. -/
def initialBasicGoals : List Goal :=
  [{ id := "maintain_energy", description := "Keep energy levels above 30%", priority := 9 },
   { id := "social_connection", description := "Maintain relationships with others", priority := 7 },
   { id := "daily_productivity", description := "Complete daily work and activities", priority := 6 },
   { id := "personal_growth", description := "Learn new things and develop skills", priority := 5 }]

/-- The mutable state of an ActionPlanner (its goals, plan log and current
plan); the owning agent is passed explicitly to each operation. -/
structure PlannerState where
  goals : List Goal
  plans : List Plan := []
  currentPlan : Option Plan := none
  deriving DecidableEq, Repr

/-- ActionPlanner.__init__. -/
def mkActionPlanner : PlannerState := { goals := initialBasicGoals }

/-- Substring test (the Python `in` operator on strings). -/
def strContains (hay needle : String) : Bool := decide (needle.toList <:+: hay.toList)

/-- The social keyword list of _assess_needs. -/
def socialKws : List String := ["talk", "conversation", "chat", "meet"]

/-- ActionPlanner._assess_needs: derives the need vector from energy,
time of day, recent social memories in the retrieval context, and the
current area, in exactly the mutation order of the source. -/
def assessNeeds (energy : ℚ) (area : String) (timeOfDay : String)
    (contextMemories : List Memory) : Needs :=
  let n0 : Needs := {}
  let n1 := if energy < 30 then { n0 with energy := 0.9 }
    else if energy < 60 then { n0 with energy := 0.5 } else n0
  let n2 := if timeOfDay = "night" ∧ energy < 70 then { n1 with energy := 0.8 }
    else if timeOfDay = "morning" then { n1 with work := 0.6 }
    else if timeOfDay = "evening" then { n1 with social := 0.7 } else n1
  let recentSocial := contextMemories.filter
    (fun m => socialKws.any (fun kw => strContains m.description.toLower kw))
  let n3 := if recentSocial.length < 3 then { n2 with social := 0.6 } else n2
  if area = "home" then { n3 with maintenance := 0.4 }
  else if area = "office" then { n3 with work := 0.7 }
  else if area = "park" then { n3 with social := 0.5, exploration := 0.3 } else n3

/-- The urgency of one goal in _select_active_goal. -/
def goalUrgency (g : Goal) (needs : Needs) (now : ℚ) : ℚ :=
  let u0 := g.priority * 0.1
  let u1 :=
    if g.id = "maintain_energy" then u0 + needs.energy * 0.9
    else if g.id = "social_connection" then u0 + needs.social * 0.7
    else if g.id = "daily_productivity" then u0 + needs.work * 0.6 else u0
  match g.deadline with
  | none => u1
  | some d =>
    let hoursTo := (d - now) / 3600
    let u2 := if hoursTo < 24 then u1 + 0.3 else u1
    if hoursTo < 6 then u2 + 0.5 else u2

/-- Python max over a keyed sequence: the first entry attaining the
maximal value (later entries replace only on strictly greater). -/
def argmaxFirst : List (String × ℚ) → Option (String × ℚ)
  | [] => none
  | x :: l => some (l.foldl (fun best y => if best.2 < y.2 then y else best) x)

/-- ActionPlanner._select_active_goal: computes the urgency of every active
goal and returns the first goal whose id attains the maximal urgency;
with no active goals it falls back to the first active goal or the head of
the goal list (Python would raise on a fully empty goal list; that case is
none here). -/
def selectActiveGoal (goals : List Goal) (needs : Needs) (now : ℚ) : Option Goal :=
  let urg := (goals.filter (·.isActive)).map (fun g => (g.id, goalUrgency g needs now))
  match argmaxFirst urg with
  | some best => goals.find? (fun g => g.id = best.1)
  | none =>
    match goals.find? (·.isActive) with
    | some g => some g
    | none => goals.head?

/-- View of one nearby agent as delivered inside a world-state snapshot
(map.get_nearby_agents output, minus the real-valued distance field). -/
structure NearbyAgentView where
  id : String
  name : String
  x : ℚ
  y : ℚ
  area : String
  deriving DecidableEq, Repr

/-- The pieces of the owning agent and of the world snapshot that plan
generation reads. -/
structure PlanCtx where
  energy : ℚ
  area : String
  workArea : String := "office"
  occupation : String := "general"
  nearbyAgents : List NearbyAgentView := []
  deriving DecidableEq, Repr

/-- ActionPlanner._create_energy_plan: sleep below 20 energy, eat below 50,
otherwise a short relaxing break. -/
def createEnergyPlan (energy : ℚ) : List AgentAction :=
  if energy < 20 then
    [{ type := "sleep", duration := some 60,
       targetPosition := some { x := 10, y := 10, area := "home" },
       description := some "Take a nap to restore energy" }]
  else if energy < 50 then
    [{ type := "eat", duration := some 20,
       targetPosition := some { x := 15, y := 15, area := "kitchen" },
       description := some "Have a meal to restore energy" }]
  else
    [{ type := "socialize", duration := some 15, activity := some "relax",
       description := some "Take a short break" }]

/-- ActionPlanner._create_social_plan: approach and greet the first nearby
agent, or head for the park; the greeting text itself is drawn by
random.choice and passed in here. -/
def createSocialPlan (nearby : List NearbyAgentView) (greeting : String) : List AgentAction :=
  match nearby with
  | target :: _ =>
    [{ type := "move",
       targetPosition := some { x := target.x, y := target.y, area := target.area },
       description := some ("Move closer to " ++ target.name) },
     { type := "talk", targetAgent := some target.id, message := some greeting,
       duration := some 10,
       description := some ("Start a conversation with " ++ target.name) }]
  | [] =>
    [{ type := "move", targetPosition := some { x := 50, y := 50, area := "park" },
       description := some "Go to the park to meet people" },
     { type := "socialize", activity := some "look_for_people", duration := some 15,
       description := some "Look for people to talk to" }]

/-- ActionPlanner._create_work_plan. -/
def createWorkPlan (ctx : PlanCtx) : List AgentAction :=
  [{ type := "move", targetPosition := some { x := 30, y := 30, area := ctx.workArea },
     description := some ("Go to " ++ ctx.workArea) },
   { type := "work", workType := some ctx.occupation, duration := some 45,
     description := some "Focus on work tasks" }]

/-- ActionPlanner._create_default_plan. -/
def createDefaultPlan : List AgentAction :=
  [{ type := "socialize", activity := some "observe", duration := some 5,
     description := some "Observe the environment" }]

/-- ActionPlanner._create_plan_for_goal: dispatch on the goal id, append the
fresh plan to the plan log and make it current. -/
def createPlanForGoal (ps : PlannerState) (goal : Goal) (ctx : PlanCtx) (now : ℚ)
    (greeting : String) : Plan × PlannerState :=
  let actions :=
    if goal.id = "maintain_energy" then createEnergyPlan ctx.energy
    else if goal.id = "social_connection" then createSocialPlan ctx.nearbyAgents greeting
    else if goal.id = "daily_productivity" then createWorkPlan ctx
    else createDefaultPlan
  let plan : Plan :=
    { id := goal.id ++ "_" ++ toString ps.plans.length
      goalId := goal.id
      description := "Plan to achieve: " ++ goal.description
      actions := actions
      createdAt := now }
  (plan, { ps with plans := ps.plans ++ [plan], currentPlan := some plan })

/-- ActionPlanner._get_or_create_plan: reuse the first active plan for the
goal if it still has actions queued, otherwise create a new one. -/
def getOrCreatePlan (ps : PlannerState) (goal : Goal) (ctx : PlanCtx) (now : ℚ)
    (greeting : String) : Plan × PlannerState :=
  match ps.plans.find? (fun p => p.goalId = goal.id ∧ p.status = "active") with
  | some p => if p.actions ≠ [] then (p, ps) else createPlanForGoal ps goal ctx now greeting
  | none => createPlanForGoal ps goal ctx now greeting

/-- In-place mutation of an aliased plan object: replace the list and
current-plan entries whose id matches. -/
def updatePlanIn (ps : PlannerState) (planId : String) (newPlan : Plan) : PlannerState :=
  { ps with
      plans := ps.plans.map (fun p => if p.id = planId then newPlan else p)
      currentPlan := ps.currentPlan.map (fun cp => if cp.id = planId then newPlan else cp) }

/-- ActionPlanner._generate_default_action: move toward home, park or office
according to the single highest need (first key wins ties, in dict order). -/
def generateDefaultAction (needs : Needs) : AgentAction :=
  let pairs := [("energy", needs.energy), ("social", needs.social), ("work", needs.work),
                ("exploration", needs.exploration), ("maintenance", needs.maintenance)]
  let highest := ((argmaxFirst pairs).map (·.1)).getD "energy"
  if highest = "energy" then
    { type := "move", targetPosition := some { x := 10, y := 10, area := "home" },
      description := some "Go home to rest" }
  else if highest = "social" then
    { type := "move", targetPosition := some { x := 50, y := 50, area := "park" },
      description := some "Go to park to socialize" }
  else if highest = "work" then
    { type := "move", targetPosition := some { x := 30, y := 30, area := "office" },
      description := some "Go to work" }
  else
    { type := "socialize", activity := some "explore",
      description := some "Explore the environment" }

/-- ActionPlanner.plan_next_action: assess needs, select the most urgent
goal, get or create its plan, and return the front action of that plan
(popping it first when it is already marked completed); with no plan
actions available, fall back to a default action. -/
def planNextAction (ps : PlannerState) (ctx : PlanCtx) (timeOfDay : String)
    (contextMemories : List Memory) (now : ℚ) (greeting : String) :
    Option AgentAction × PlannerState :=
  let needs := assessNeeds ctx.energy ctx.area timeOfDay contextMemories
  match selectActiveGoal ps.goals needs now with
  | none => (none, ps)
  | some goal =>
    let pr := getOrCreatePlan ps goal ctx now greeting
    match pr.1.actions with
    | [] => (some (generateDefaultAction needs), pr.2)
    | action :: rest =>
      if action.completed then
        let plan2 := { pr.1 with
                        actions := rest
                        status := if rest = [] then "completed" else pr.1.status }
        (some action, updatePlanIn pr.2 pr.1.id plan2)
      else (some action, pr.2)

/-- Python int() on a float: truncation toward zero. -/
def pyInt (q : ℚ) : ℤ := if 0 ≤ q then ⌊q⌋ else ⌈q⌉

/-- TerrainType (environment/map.py). -/
inductive TerrainType where
  | walkable
  | blocked
  | water
  | building
  | road
  deriving DecidableEq, Repr

/-- Building (environment/map.py). -/
structure Building where
  id : String
  name : String
  buildingType : String
  entranceX : ℤ
  entranceY : ℤ
  width : ℤ
  height : ℤ
  description : String := ""
  capacity : ℕ := 10
  currentOccupants : List String := []
  deriving DecidableEq, Repr

/-- One entry of the buildings_config table in GameMap._create_buildings. -/
structure BuildingCfg where
  id : String
  name : String
  btype : String
  x : ℤ
  y : ℤ
  w : ℤ
  h : ℤ
  deriving DecidableEq, Repr

/-- GameMap._create_buildings: the fixed building table. -/
def buildingsConfig : List BuildingCfg :=
  [⟨"house_1", "Alice's House", "home", 5, 5, 8, 6⟩,
   ⟨"house_2", "Bob's House", "home", 5, 15, 8, 6⟩,
   ⟨"house_3", "Charlie's House", "home", 5, 25, 8, 6⟩,
   ⟨"coffee_shop", "Alice's Coffee Shop", "shop", 20, 20, 10, 8⟩,
   ⟨"bookstore", "The Book Corner", "shop", 35, 20, 8, 6⟩,
   ⟨"grocery", "Town Grocery", "shop", 20, 35, 12, 8⟩,
   ⟨"office_1", "Town Office", "office", 60, 30, 15, 10⟩,
   ⟨"library", "Public Library", "office", 60, 15, 12, 8⟩,
   ⟨"park", "Central Park", "park", 45, 45, 20, 15⟩,
   ⟨"restaurant", "Town Restaurant", "restaurant", 25, 50, 10, 8⟩]

/-- Whether a building footprint covers a tile. -/
def cfgCovers (c : BuildingCfg) (x y : ℤ) : Bool :=
  decide (c.x ≤ x ∧ x < c.x + c.w ∧ c.y ≤ y ∧ y < c.y + c.h)

/-- The terrain of an in-bounds tile of the default town map, following the
construction order of _create_default_map: all tiles start walkable, each
building in table order marks its footprint and then resets its entrance
tile to walkable, and finally the road rows y in 12, 32, 52 and columns
x in 18, 42, 58 overwrite whatever is there.  (The tile dictionary holds
exactly the in-bounds tiles; out-of-bounds queries are rejected by the
bounds check in is_walkable before any tile lookup.) -/
def defaultTerrain (x y : ℤ) : TerrainType :=
  let afterBuildings := buildingsConfig.foldl
    (fun t c =>
      let t2 := if cfgCovers c x y then TerrainType.building else t
      if x = c.x ∧ y = c.y then TerrainType.walkable else t2)
    TerrainType.walkable
  if y = 12 ∨ y = 32 ∨ y = 52 then TerrainType.road
  else if x = 18 ∨ x = 42 ∨ x = 58 then TerrainType.road
  else afterBuildings

/-- The area name of an in-bounds tile of the default map (buildings set it
to their id, roads overwrite it with road; the entrance reset touches only
the terrain). -/
def defaultAreaName (x y : ℤ) : String :=
  if y = 12 ∨ y = 32 ∨ y = 52 then "road"
  else if x = 18 ∨ x = 42 ∨ x = 58 then "road"
  else buildingsConfig.foldl
    (fun a c => if cfgCovers c x y then c.id else a) "outdoors"

/-- The building_id tag of an in-bounds tile of the default map (roads and
entrance resets leave building_id untouched). -/
def defaultBuildingIdAt (x y : ℤ) : Option String :=
  buildingsConfig.foldl
    (fun a c => if cfgCovers c x y then some c.id else a) none

/-- The rectangle comprehension used by _create_areas. -/
def rectCoords (x0 x1 y0 y1 : ℤ) : List (ℤ × ℤ) :=
  ((List.range (x1 - x0).toNat).map (fun i => x0 + (i : ℤ))).flatMap
    (fun x => ((List.range (y1 - y0).toNat).map (fun j => y0 + (j : ℤ))).map (fun y => (x, y)))

/-- GameMap._create_areas. -/
def defaultAreas : List (String × List (ℤ × ℤ)) :=
  [("residential", rectCoords 0 20 0 40),
   ("commercial", rectCoords 20 50 15 45),
   ("office", rectCoords 50 80 10 50),
   ("park", rectCoords 45 65 45 60),
   ("downtown", rectCoords 20 50 20 40)]

/-- GameMap: the static tile dictionary is represented by total functions
on in-bounds coordinates, the mutable building occupancy by the buildings
association list. -/
structure GameMap where
  width : ℤ
  height : ℤ
  terrainAt : ℤ → ℤ → TerrainType
  areaNameAt : ℤ → ℤ → String
  buildingIdAt : ℤ → ℤ → Option String
  buildings : List (String × Building)
  areas : List (String × List (ℤ × ℤ))

/-- Building.__post_init__ view of one config row. -/
def buildingOfCfg (c : BuildingCfg) : Building :=
  { id := c.id, name := c.name, buildingType := c.btype, entranceX := c.x,
    entranceY := c.y, width := c.w, height := c.h,
    description := "A " ++ c.btype ++ " in the town" }

/-- GameMap.__init__ with the default map of the given dimensions
(100 x 100 in the source default). -/
def defaultGameMap (w h : ℤ) : GameMap :=
  { width := w
    height := h
    terrainAt := defaultTerrain
    areaNameAt := defaultAreaName
    buildingIdAt := defaultBuildingIdAt
    buildings := buildingsConfig.map (fun c => (c.id, buildingOfCfg c))
    areas := defaultAreas }

/-- GameMap.is_walkable: in bounds and terrain walkable or road. -/
def isWalkable (gm : GameMap) (x y : ℤ) : Bool :=
  if 0 ≤ x ∧ x < gm.width ∧ 0 ≤ y ∧ y < gm.height then
    decide (gm.terrainAt x y = TerrainType.walkable ∨ gm.terrainAt x y = TerrainType.road)
  else false

/-- GameMap.get_area_name (unknown outside the tile dictionary). -/
def getAreaName (gm : GameMap) (x y : ℤ) : String :=
  if 0 ≤ x ∧ x < gm.width ∧ 0 ≤ y ∧ y < gm.height then gm.areaNameAt x y else "unknown"

/-- GameMap.get_building_at. -/
def getBuildingAt (gm : GameMap) (x y : ℤ) : Option Building :=
  if 0 ≤ x ∧ x < gm.width ∧ 0 ≤ y ∧ y < gm.height then
    match gm.buildingIdAt x y with
    | some bid => gm.buildings.lookup bid
    | none => none
  else none

/-- A grid coordinate pair. -/
abbrev GPos := ℤ × ℤ

/-- The Manhattan heuristic of find_path. -/
def heuristic (a b : GPos) : ℕ := (a.1 - b.1).natAbs + (a.2 - b.2).natAbs

/-- The eight neighbor offsets of find_path, in source order. -/
def nbrDeltas : List (ℤ × ℤ) :=
  [(-1, 0), (1, 0), (0, -1), (0, 1), (-1, -1), (-1, 1), (1, -1), (1, 1)]

/-- get_neighbors inside find_path: the walkable 8-neighbors. -/
def getNeighbors (gm : GameMap) (p : GPos) : List GPos :=
  (nbrDeltas.map (fun d => (p.1 + d.1, p.2 + d.2))).filter (fun q => isWalkable gm q.1 q.2)

/-- Lookup in a cons-shadowed association list (a Python dict: the newest
binding of a key wins). -/
def lookupA : List (GPos × β) → GPos → Option β
  | [], _ => none
  | (k, v) :: t, q => if k = q then some v else lookupA t q

/-- Dict assignment as shadowing cons. -/
def insertA (l : List (GPos × β)) (k : GPos) (v : β) : List (GPos × β) := (k, v) :: l

/-- The key set of an association list. -/
def keysA (l : List (GPos × β)) : Finset GPos := (l.map Prod.fst).toFinset

/-- The mutable state of one find_path run: g_score, f_score, came_from and
the open heap (entries are (f, position)). -/
structure AState where
  gs : List (GPos × ℕ)
  fs : List (GPos × ℕ)
  cf : List (GPos × GPos)
  frontier : List (ℕ × GPos)

/-- The total ordering heapq uses on heap entries: lexicographic on the
(f, (x, y)) tuples. -/
def entryLe (a b : ℕ × GPos) : Bool :=
  decide (a.1 < b.1 ∨ (a.1 = b.1 ∧ (a.2.1 < b.2.1 ∨ (a.2.1 = b.2.1 ∧ a.2.2 ≤ b.2.2))))

/-- The minimal entry of a nonempty heap (equal tuples are
indistinguishable, so keeping the first is heappop-faithful). -/
def minEntryOf (h : ℕ × GPos) (t : List (ℕ × GPos)) : ℕ × GPos :=
  t.foldl (fun best y => if entryLe best y then best else y) h

/-- heappop: remove and return a minimal entry. -/
def popMin : List (ℕ × GPos) → Option ((ℕ × GPos) × List (ℕ × GPos))
  | [] => none
  | h :: t =>
    let m := minEntryOf h t
    some (m, (h :: t).erase m)

/-- The relaxation of one neighbor in the A* main loop: when the tentative
g improves (or the neighbor is fresh), record came_from, g, f and push. -/
def relaxNeighbor (endp cur : GPos) (st : AState) (nb : GPos) : AState :=
  let tg := (lookupA st.gs cur).getD 0 + 1
  let improves : Bool :=
    match lookupA st.gs nb with
    | none => true
    | some g0 => decide (tg < g0)
  if improves then
    let f := tg + heuristic nb endp
    { gs := insertA st.gs nb tg
      fs := insertA st.fs nb f
      cf := insertA st.cf nb cur
      frontier := (f, nb) :: st.frontier }
  else st

/-- Path reconstruction of find_path: walk came_from back from the end
node, then append the start and reverse (here built directly in final
order); the fuel bounds the chain length, which the g-decrease invariant
keeps below the grid size. -/
def reconstructPath (cf : List (GPos × GPos)) (start : GPos) :
    ℕ → GPos → List GPos → Option (List GPos)
  | 0, _, _ => none
  | fuel + 1, cur, acc =>
    match lookupA cf cur with
    | some prev => reconstructPath cf start fuel prev (cur :: acc)
    | none => some (start :: acc)

/-- The A* main loop of GameMap.find_path.  Each iteration pops a minimal
frontier entry, returns the reconstructed path when it is the goal, and
otherwise relaxes the walkable 8-neighbors; an empty frontier means no
path and yields the empty list.  none signals fuel exhaustion, which the
chosen fuel provably never reaches. -/
def astarLoop (gm : GameMap) (endp start : GPos) (rfuel : ℕ) :
    ℕ → AState → Option (List GPos)
  | 0, _ => none
  | fuel + 1, st =>
    match popMin st.frontier with
    | none => some []
    | some (e, rest) =>
      if e.2 = endp then reconstructPath st.cf start rfuel e.2 []
      else
        astarLoop gm endp start rfuel fuel
          ((getNeighbors gm e.2).foldl (relaxNeighbor endp e.2) { st with frontier := rest })

/-- The key-count bound of one A* run: every g_score key is a walkable
in-bounds cell or the start itself. -/
def kmaxOf (gm : GameMap) : ℕ := gm.width.toNat * gm.height.toNat + 1

/-- The per-run fuel: strictly more than twice the square of the key
bound. -/
def astarFuel (gm : GameMap) : ℕ := 2 * kmaxOf gm * kmaxOf gm + 1

/-- The initial A* state of find_path: g_score has start at 0, f_score has
the start heuristic, and the heap holds (0, start). -/
def astarInit (endp start : GPos) : AState :=
  { gs := [(start, 0)]
    fs := [(start, heuristic start endp)]
    cf := []
    frontier := [(0, start)] }

/-- GameMap.find_path.  The path cache is not modelled: on a static grid it
only ever stores values this computation itself produced for the same key,
so the uncached computation describes every call. -/
def findPath (gm : GameMap) (start endp : GPos) : List GPos :=
  (astarLoop gm endp start (kmaxOf gm) (astarFuel gm) (astarInit endp start)).getD []

/-- One A* step relation: q is a walkable 8-neighbor of p.  The end point
is reachable from the start when the reflexive-transitive closure holds;
note the start tile itself is never required to be walkable. -/
def stepRel (gm : GameMap) (p q : GPos) : Prop := q ∈ getNeighbors gm p

/-- Reachability through walkable 8-connected steps. -/
def reachable (gm : GameMap) (s e : GPos) : Prop := Relation.ReflTransGen (stepRel gm) s e

/-- AgentState (agents/base_agent.py). -/
inductive AgState where
  | idle
  | moving
  | talking
  | working
  | sleeping
  | eating
  | socializing
  deriving DecidableEq, Repr

/-- The .value string of an AgentState member. -/
def AgState.value : AgState → String
  | .idle => "idle"
  | .moving => "moving"
  | .talking => "talking"
  | .working => "working"
  | .sleeping => "sleeping"
  | .eating => "eating"
  | .socializing => "socializing"

/-- BaseAgent (agents/base_agent.py): the mutable per-agent state the world
loop reads and writes.  perception_radius and conversation_radius are the
fixed values every constructed agent gets in __init__. -/
structure Agent where
  agentId : String
  name : String
  age : ℕ
  personality : List (String × ℚ)
  background : String
  occupation : String := "resident"
  workArea : Option String := none
  state : AgState := .idle
  position : Position
  energy : ℚ := 100
  mood : ℚ := 0
  memory : MemoryStream
  planner : PlannerState
  relationships : List (String × ℚ) := []
  currentAction : Option AgentAction := none
  actionStart : Option ℚ := none
  perceptionRadius : ℚ := 5
  conversationRadius : ℚ := 2
  deriving DecidableEq, Repr

/-- personality.get(key, default). -/
def personalityGet (a : Agent) (k : String) (d : ℚ) : ℚ := (a.personality.lookup k).getD d

/-- BaseAgent.__init__ followed by _initialize_memories (the
self-introduction observation of importance 9). -/
def mkAgent (now : ℚ) (agentId name : String) (age : ℕ)
    (personality : List (String × ℚ)) (background : String) (pos : Position)
    (occupation : String := "resident") (workArea : Option String := none) : Agent :=
  let intro : Observation :=
    { timestamp := now
      observerId := agentId
      eventType := "self_introduction"
      description := "I am " ++ name ++ ", " ++ toString age ++ " years old. " ++ background
      location := pos
      importance := 9 }
  { agentId := agentId, name := name, age := age, personality := personality
    background := background, occupation := occupation, workArea := workArea
    position := pos
    memory := (addObservation (mkMemoryStream agentId) intro).2
    planner := mkActionPlanner }

/-- BaseAgent.receive_message: the delivered message becomes a
received_message observation of importance 4 in the listener's memory. -/
def receiveMessage (a : Agent) (now : ℚ) (senderId msg senderName : String) : Agent :=
  let obs : Observation :=
    { timestamp := now
      observerId := a.agentId
      eventType := "received_message"
      description := senderName ++ " said: " ++ msg
      location := a.position
      participants := [senderId]
      importance := 4 }
  { a with memory := (addObservation a.memory obs).2 }

/-- BaseAgent._update_internal_state: drain 1 energy (plus 2 when working,
minus a 5 recovery when sleeping), clamp energy to 0..100, drift mood down
0.1 under 20 energy or up 0.05 over 80, clamp mood to -1..1. -/
def updateInternalState (a : Agent) : Agent :=
  let e1 := a.energy - 1
  let e2 :=
    if a.state = AgState.sleeping then e1 + 5
    else if a.state = AgState.working then e1 - 2
    else e1
  let e3 := max 0 (min 100 e2)
  let m1 :=
    if e3 < 20 then a.mood - 0.1
    else if 80 < e3 then a.mood + 0.05
    else a.mood
  { a with energy := e3, mood := max (-1) (min 1 m1) }

/-- BaseAgent.get_status. -/
structure AgentStatus where
  agentId : String
  name : String
  age : ℕ
  occupation : String
  workArea : Option String
  position : Position
  state : String
  energy : ℚ
  mood : ℚ
  currentAction : Option AgentAction
  memoryCount : ℕ
  deriving DecidableEq, Repr

/-- get_status reads the agent fields and the observation count. -/
def getStatus (a : Agent) : AgentStatus :=
  { agentId := a.agentId, name := a.name, age := a.age, occupation := a.occupation
    workArea := a.workArea
    position := a.position
    state := a.state.value
    energy := a.energy
    mood := a.mood
    currentAction := a.currentAction
    memoryCount := a.memory.observations.length }

/-- get_status as a call on the agent state, returning the value and the
state the call leaves behind (the method only reads). -/
def runGetStatus (a : Agent) : AgentStatus × Agent := (getStatus a, a)

/-- WorldEvent metadata, one variant per construction site in
core/world.py. -/
inductive EventMeta where
  | emptyMeta
  | conversationMeta (message speaker listener : String)
  | activityMeta (extra : AgentAction)
  | greetingMeta
  deriving DecidableEq, Repr

/-- WorldEvent (core/world.py).  The uuid4 id is modelled as an arbitrary
fixed string, as no behaviour reads it back. -/
structure WorldEvent where
  id : String
  timestamp : ℚ
  eventType : String
  description : String
  location : Position
  participants : List String := []
  metadata : EventMeta := .emptyMeta
  duration : Option ℚ := none
  deriving DecidableEq, Repr

/-- WorldEvent.is_expired: never for duration None, otherwise when the
minutes elapsed since the timestamp reach the duration. -/
def eventExpired (now : ℚ) (e : WorldEvent) : Bool :=
  match e.duration with
  | none => false
  | some d => decide (d ≤ minutesSince now e.timestamp)

/-- The running statistics dictionary of World.__init__. -/
structure WorldStats where
  totalInteractions : ℕ := 0
  totalMovements : ℕ := 0
  totalConversations : ℕ := 0
  uptimeStart : ℚ := 0
  deriving DecidableEq, Repr

/-- World (core/world.py): agents in insertion order, the live and
historical event lists, counters, and the per-pair auto-interaction
cooldown dictionary. -/
structure World where
  agents : List (String × Agent)
  map : GameMap
  currentEvents : List WorldEvent := []
  eventHistory : List WorldEvent := []
  isRunning : Bool := false
  stepCount : ℕ := 0
  lastStepTime : Option ℚ := none
  stats : WorldStats := {}
  actionHistory : List (String × ℕ) := []
  lastAutoInteraction : List ((String × String) × ℚ) := []

/-- World._cleanup_expired_events: split the live list into unexpired
(kept, in order) and expired (appended to the history, in order), then
keep only the newest 1000 history entries. -/
def cleanupExpiredEvents (now : ℚ) (w : World) : World :=
  let part := w.currentEvents.foldl
    (fun (acc : List WorldEvent × List WorldEvent) e =>
      if eventExpired now e then (acc.1, acc.2 ++ [e]) else (acc.1 ++ [e], acc.2))
    ([], [])
  let hist := w.eventHistory ++ part.2
  let hist2 := if 1000 < hist.length then hist.drop (hist.length - 1000) else hist
  { w with currentEvents := part.1, eventHistory := hist2 }

/-- One row of the agent_positions dictionary in get_world_state. -/
structure AgentPosView where
  id : String
  name : String
  x : ℚ
  y : ℚ
  area : String
  state : String
  energy : ℚ
  mood : ℚ
  deriving DecidableEq, Repr

/-- One row of map.get_nearby_agents output (with its real-valued
distance annotation). -/
structure NearbyAgentRow where
  id : String
  name : String
  x : ℚ
  y : ℚ
  area : String
  distance : ℝ

/-- GameMap.get_nearby_agents: linear scan over the positions dictionary,
keeping the entries within the Euclidean radius, annotated with the tile
area under the truncated coordinates. -/
noncomputable def getNearbyAgents (gm : GameMap) (cx cy radius : ℚ)
    (aps : List (String × AgentPosView)) : List NearbyAgentRow :=
  (aps.filter (fun p =>
    @decide (Real.sqrt (((p.2.x : ℝ) - cx) ^ 2 + ((p.2.y : ℝ) - cy) ^ 2) ≤ (radius : ℝ))
      (Classical.propDecidable _))).map
    (fun p =>
      { id := p.2.id, name := p.2.name, x := p.2.x, y := p.2.y
        area := getAreaName gm (pyInt p.2.x) (pyInt p.2.y)
        distance := Real.sqrt (((p.2.x : ℝ) - cx) ^ 2 + ((p.2.y : ℝ) - cy) ^ 2) })

/-- get_map_data output. -/
structure BuildingView where
  id : String
  name : String
  btype : String
  x : ℤ
  y : ℤ
  width : ℤ
  height : ℤ
  occupants : List String
  deriving DecidableEq, Repr

/-- get_map_data output record. -/
structure MapData where
  width : ℤ
  height : ℤ
  buildings : List BuildingView
  areas : List (String × List (ℤ × ℤ))
  deriving DecidableEq, Repr

/-- GameMap.get_map_data. -/
def getMapData (gm : GameMap) : MapData :=
  { width := gm.width
    height := gm.height
    buildings := gm.buildings.map (fun p =>
      { id := p.2.id, name := p.2.name, btype := p.2.buildingType
        x := p.2.entranceX, y := p.2.entranceY, width := p.2.width, height := p.2.height
        occupants := p.2.currentOccupants })
    areas := gm.areas }

/-- The world-state snapshot assembled by World.get_world_state.  The
formatted clock string, time-of-day and weekday all derive from the
GameTime.now() reading taken during the call; current_time keeps the raw
reading (the second-resolution format string is injective on it). -/
structure WorldSnapshot where
  currentTime : ℚ
  timeOfDay : String
  dayOfWeek : ℤ
  stepCount : ℕ
  agentPositions : List (String × AgentPosView)
  events : List WorldEvent
  mapData : MapData
  nearbyAgents : Option (List NearbyAgentRow)

/-- World.get_world_state: agent position rows in agent insertion order,
the live events, the map data, and, for an agent-eye view, the nearby
agents within that agent's own perception radius. -/
noncomputable def getWorldState (w : World) (now : ℚ) (forAgentId : Option String) :
    WorldSnapshot :=
  let aps := w.agents.map (fun p =>
    (p.1, { id := p.1, name := p.2.name, x := p.2.position.x, y := p.2.position.y
            area := p.2.position.area, state := p.2.state.value
            energy := p.2.energy, mood := p.2.mood : AgentPosView }))
  let base : WorldSnapshot :=
    { currentTime := now
      timeOfDay := getTimeOfDay now
      dayOfWeek := ⌊now / 86400⌋ % 7
      stepCount := w.stepCount
      agentPositions := aps
      events := w.currentEvents
      mapData := getMapData w.map
      nearbyAgents := none }
  match forAgentId with
  | none => base
  | some aid =>
    match w.agents.lookup aid with
    | none => base
    | some a =>
      let nb := getNearbyAgents w.map a.position.x a.position.y a.perceptionRadius aps
      { base with nearbyAgents := some nb }

/-- get_world_state as a call on the world state, returning the snapshot
and the state the call leaves behind (the method only reads). -/
noncomputable def runGetWorldState (w : World) (now : ℚ) (forAgentId : Option String) :
    WorldSnapshot × World := (getWorldState w now forAgentId, w)

/-- Replace the binding of one key in an insertion-ordered dictionary. -/
def dictUpdate [DecidableEq κ] : List (κ × β) → κ → β → List (κ × β)
  | [], _, _ => []
  | (k0, v0) :: t, k, v => if k0 = k then (k0, v) :: t else (k0, v0) :: dictUpdate t k v

/-- Increment (or insert) a counter in an insertion-ordered dictionary. -/
def dictIncr (l : List (String × ℕ)) (k : String) (n : ℕ) : List (String × ℕ) :=
  match l with
  | [] => [(k, n)]
  | (k0, v) :: t => if k0 = k then (k0, v + n) :: t else (k0, v) :: dictIncr t k n

/-- GameMap.add_agent_to_building: capacity-checked, duplicate-free
membership; False (and no change) when the building is unknown or full. -/
def mapAddAgentToBuilding (gm : GameMap) (agentId buildingId : String) : Bool × GameMap :=
  match gm.buildings.lookup buildingId with
  | none => (false, gm)
  | some b =>
    if b.currentOccupants.length < b.capacity then
      let b2 :=
        if agentId ∈ b.currentOccupants then b
        else { b with currentOccupants := b.currentOccupants ++ [agentId] }
      (true, { gm with buildings := dictUpdate gm.buildings buildingId b2 })
    else (false, gm)

/-- GameMap.remove_agent_from_building: removes the first occurrence of a
member; a no-op for non-members and unknown buildings. -/
def mapRemoveAgentFromBuilding (gm : GameMap) (agentId buildingId : String) : GameMap :=
  match gm.buildings.lookup buildingId with
  | none => gm
  | some b =>
    if agentId ∈ b.currentOccupants then
      let b2 := { b with currentOccupants := b.currentOccupants.erase agentId }
      { gm with buildings := dictUpdate gm.buildings buildingId b2 }
    else gm

/-- World._to_event_id: normalize an action type to an event id. -/
def toEventId (actionType : String) : String :=
  if actionType = "" then "unknown"
  else
    let n := actionType.toLower
    if n = "move" then "movement" else if n = "talk" then "conversation" else n

/-- The error action result the step loop records for a failed agent:
a record with type error carrying the message. -/
def errorResult (msg : String) : AgentAction := { type := "error", errorMsg := some msg }

/-- World._process_movement: transfer building occupancy between the old
and new tile buildings and append a movement WorldEvent of duration 1. -/
noncomputable def processMovement (now : ℚ) (agentId : String) (act : AgentAction)
    (w : World) : World :=
  match w.agents.lookup agentId with
  | none => w
  | some agent =>
    let oldPos := agent.position
    let newX := (act.position.map (·.x)).getD agent.position.x
    let newY := (act.position.map (·.y)).getD agent.position.y
    let oldB := getBuildingAt w.map (pyInt oldPos.x) (pyInt oldPos.y)
    let newB := getBuildingAt w.map (pyInt newX) (pyInt newY)
    let gm1 :=
      match oldB with
      | some b => if oldB ≠ newB then mapRemoveAgentFromBuilding w.map agentId b.id else w.map
      | none => w.map
    let gm2 :=
      match newB with
      | some b => if newB ≠ oldB then (mapAddAgentToBuilding gm1 agentId b.id).2 else gm1
      | none => gm1
    let ev : WorldEvent :=
      { id := "uuid4"
        timestamp := now
        eventType := "movement"
        description := agent.name ++ " moved from " ++ oldPos.area ++ " to " ++
          ((act.position.map (·.area)).getD "unknown")
        location := { x := newX, y := newY
                      area := (act.position.map (·.area)).getD agent.position.area }
        participants := [agentId]
        duration := some 1 }
    { w with map := gm2
             currentEvents := w.currentEvents ++ [ev]
             stats := { w.stats with totalMovements := w.stats.totalMovements + 1 } }

/-- World._process_talk: with both agents present, drop the action silently
when the distance exceeds the speaker conversation radius; otherwise
deliver the message to the listener memory and append a conversation
WorldEvent of duration 5, counting one conversation and one
interaction. -/
noncomputable def processTalk (now : ℚ) (agentId : String) (act : AgentAction)
    (w : World) : World :=
  match w.agents.lookup agentId, act.targetAgent with
  | some speaker, some targetId =>
    match w.agents.lookup targetId with
    | none => w
    | some target =>
      let msg := act.message.getD ""
      if @decide ((speaker.conversationRadius : ℝ) < distanceTo speaker.position target.position)
          (Classical.propDecidable _) then w
      else
        let target2 := receiveMessage target now agentId msg speaker.name
        let ev : WorldEvent :=
          { id := "uuid4"
            timestamp := now
            eventType := "conversation"
            description := speaker.name ++ " said to " ++ target.name ++ ": " ++ msg
            location := speaker.position
            participants := [agentId, targetId]
            metadata := .conversationMeta msg agentId targetId
            duration := some 5 }
        { w with agents := dictUpdate w.agents targetId target2
                 currentEvents := w.currentEvents ++ [ev]
                 stats := { w.stats with
                              totalConversations := w.stats.totalConversations + 1
                              totalInteractions := w.stats.totalInteractions + 1 } }
  | _, _ => w

/-- World._process_activity: append a generic activity event of duration 10
whose type is the action type and whose metadata carries the extra action
fields. -/
def processActivity (now : ℚ) (agentId : String) (act : AgentAction) (w : World) : World :=
  match w.agents.lookup agentId with
  | none => w
  | some agent =>
    let ev : WorldEvent :=
      { id := "uuid4"
        timestamp := now
        eventType := act.type
        description := agent.name ++ " is " ++ (act.type.replace "_" " ")
        location := agent.position
        participants := [agentId]
        metadata := .activityMeta act
        duration := some 10 }
    { w with currentEvents := w.currentEvents ++ [ev] }

/-- World._process_agent_action: dispatch on the normalized event id,
rewriting the action type in place (the caller keeps the same record). -/
noncomputable def processAgentAction (now : ℚ) (agentId : String) (act : AgentAction)
    (w : World) : World :=
  let eid := toEventId act.type
  if eid = "movement" then processMovement now agentId { act with type := "movement" } w
  else if eid = "conversation" then processTalk now agentId { act with type := "conversation" } w
  else processActivity now agentId { act with type := eid } w

/-- The randomness the world loop consumes in one tick: the random.random()
draw per agent pair and the random.choice over greeting candidates. -/
structure WorldOracle where
  randDraw : String → String → ℚ
  greetingChoice : List String → String

/-- The canonical per-pair cooldown key: tuple(sorted([id1, id2])). -/
def pairKey (a b : String) : String × String := if a ≤ b then (a, b) else (b, a)

/-- World._should_agents_interact: extraversion product times 0.08, halved
again when either side is introverted, compared with the random draw. -/
def shouldAgentsInteract (o : WorldOracle) (a1 a2 : Agent) : Bool :=
  let s1 := personalityGet a1 "extraversion" 0.5
  let s2 := personalityGet a2 "extraversion" 0.5
  let p := s1 * s2 * 0.08
  let p2 := if s1 < 0.5 ∨ s2 < 0.5 then p * 0.5 else p
  decide (o.randDraw a1.agentId a2.agentId < p2)

/-- World._create_automatic_interaction: deliver a greeting to the second
agent and append an automatic_interaction event of duration 3. -/
def createAutomaticInteraction (o : WorldOracle) (now : ℚ) (a1 a2 : Agent)
    (w : World) : World :=
  let msgs := ["Hello " ++ a2.name ++ "! Nice to see you.",
               "Hi there! How are you doing?",
               "Good " ++ getTimeOfDay now ++ "! How's everything?"]
  let message := o.greetingChoice msgs
  let a2' := receiveMessage a2 now a1.agentId message a1.name
  let ev : WorldEvent :=
    { id := "uuid4"
      timestamp := now
      eventType := "automatic_interaction"
      description := a1.name ++ " and " ++ a2.name ++ " had a brief interaction"
      location := a1.position
      participants := [a1.agentId, a2.agentId]
      metadata := .greetingMeta
      duration := some 3 }
  { w with agents := dictUpdate w.agents a2.agentId a2'
           currentEvents := w.currentEvents ++ [ev]
           stats := { w.stats with totalInteractions := w.stats.totalInteractions + 1 } }

/-- Unordered pairs in list order (the nested i, i+1.. loops). -/
def listPairs : List α → List (α × α)
  | [] => []
  | x :: t => t.map (fun y => (x, y)) ++ listPairs t

/-- World._process_interactions: for each unordered agent pair within 2.0
distance with both agents idle or socializing, skip inside the 10-minute
per-pair cooldown, otherwise draw the interaction probability and on
success run the scripted greeting and stamp the cooldown. -/
noncomputable def processInteractions (o : WorldOracle) (now : ℚ) (w : World) : World :=
  (listPairs (w.agents.map Prod.fst)).foldl
    (fun wacc pr =>
      match wacc.agents.lookup pr.1, wacc.agents.lookup pr.2 with
      | some a1, some a2 =>
        if @decide (distanceTo a1.position a2.position ≤ 2) (Classical.propDecidable _)
            && decide (a1.state = AgState.idle ∨ a1.state = AgState.socializing)
            && decide (a2.state = AgState.idle ∨ a2.state = AgState.socializing) then
          let pk := pairKey pr.1 pr.2
          let cooled : Bool :=
            match wacc.lastAutoInteraction.lookup pk with
            | none => true
            | some t => decide (10 ≤ minutesSince now t)
          if cooled then
            if shouldAgentsInteract o a1 a2 then
              let w2 := createAutomaticInteraction o now a1 a2 wacc
              { w2 with lastAutoInteraction := (pk, now) :: w2.lastAutoInteraction }
            else wacc
          else wacc
        else wacc
      | _, _ => wacc)
    w

/-- World._update_stats: tally the per-type counts of this tick and fold
them into the running action_history dictionary. -/
def updateStats (results : List (String × AgentAction)) (w : World) : World :=
  let counts := results.foldl (fun acc r => dictIncr acc r.2.type 1) ([] : List (String × ℕ))
  { w with actionHistory := counts.foldl (fun ah p => dictIncr ah p.1 p.2) w.actionHistory }

/-- World.step.  The concurrent per-agent cognitive cycles are modelled by
the behaviour function: each agent receives the snapshot of the cleaned
world taken before the concurrent phase and either returns its action
result or raises (Except.error).  A raising agent is recorded as a
type-error result and contributes no world mutation; each successful
result is normalized in place and applied in agent order; interaction
resolution and the statistics tally always follow. -/
noncomputable def worldStep (behav : String → WorldSnapshot → Except String AgentAction)
    (o : WorldOracle) (now : ℚ) (w : World) : List (String × AgentAction) × World :=
  let w0 := { w with stepCount := w.stepCount + 1, lastStepTime := some now }
  let w1 := cleanupExpiredEvents now w0
  let outcomes := w1.agents.map (fun p => (p.1, behav p.1 (getWorldState w1 now (some p.1))))
  let applied := outcomes.foldl
    (fun (acc : List (String × AgentAction) × World) p =>
      match p.2 with
      | Except.ok act =>
        (acc.1 ++ [(p.1, { act with type := toEventId act.type })],
         processAgentAction now p.1 act acc.2)
      | Except.error msg => (acc.1 ++ [(p.1, errorResult msg)], acc.2))
    ([], w1)
  let w2 := processInteractions o now applied.2
  let w3 := updateStats applied.1 w2
  (applied.1, w3)

/-- A valid find_path result for start s and end e: nonempty, from s to e,
and every consecutive pair is one A* step (8-adjacent with a walkable
target tile). -/
def validPath (gm : GameMap) (s e : GPos) (p : List GPos) : Prop :=
  p ≠ [] ∧ p.head? = some s ∧ p.getLast? = some e ∧ p.Chain' (stepRel gm)

/-- The positions currently on the A* frontier. -/
def frontierPos (st : AState) : List GPos := st.frontier.map Prod.snd

/-- The in-bounds cells of a map, as a finite set. -/
def boundedCells (gm : GameMap) : Finset GPos :=
  Finset.Icc 0 (gm.width - 1) ×ˢ Finset.Icc 0 (gm.height - 1)

/-- The sum of the recorded g values over the keys of a g_score list. -/
noncomputable def gsumL (gs : List (GPos × ℕ)) : ℕ :=
  (keysA gs).sum (fun p => (lookupA gs p).getD 0)

/-- The g-value sum of one A* state. -/
noncomputable def gsum (st : AState) : ℕ := gsumL st.gs

/-- The termination measure of the A* loop: each iteration strictly
decreases it. -/
noncomputable def aMeasure (gm : GameMap) (st : AState) : ℕ :=
  st.frontier.length + 2 * gsum st + 2 * kmaxOf gm * (kmaxOf gm - (keysA st.gs).card)

/-- The A* loop invariant: the start is a key, every key is reachable and
either still pending on the frontier or fully expanded, frontier positions
are keys, the end can only be a key while it is pending, came_from links
are walkable steps with strictly decreasing g, only the start lacks a
came_from link, g values are below the key count, and keys are the start
or walkable cells. -/
structure AInv (gm : GameMap) (endp start : GPos) (st : AState) : Prop where
  startMem : start ∈ keysA st.gs
  reach : ∀ p ∈ keysA st.gs, reachable gm start p
  expanded : ∀ p ∈ keysA st.gs,
    p ∈ frontierPos st ∨ ∀ q ∈ getNeighbors gm p, q ∈ keysA st.gs
  frontierKeys : ∀ p ∈ frontierPos st, p ∈ keysA st.gs
  endFrontier : endp ∈ keysA st.gs → endp ∈ frontierPos st
  cfSpec : ∀ p q, lookupA st.cf p = some q → q ∈ keysA st.gs ∧ p ∈ getNeighbors gm q ∧
    ∃ gp gq, lookupA st.gs p = some gp ∧ lookupA st.gs q = some gq ∧ gq < gp
  cfNone : ∀ p ∈ keysA st.gs, lookupA st.cf p = none → p = start
  gBound : ∀ p g, lookupA st.gs p = some g → g < (keysA st.gs).card
  keysOk : ∀ p ∈ keysA st.gs, p = start ∨ isWalkable gm p.1 p.2 = true

/-- The weakened invariant holding in the middle of expanding cur: cur may
be neither pending nor fully expanded yet. -/
structure AInvAux (gm : GameMap) (endp start cur : GPos) (st : AState) : Prop where
  startMem : start ∈ keysA st.gs
  reach : ∀ p ∈ keysA st.gs, reachable gm start p
  expanded : ∀ p ∈ keysA st.gs,
    p = cur ∨ p ∈ frontierPos st ∨ ∀ q ∈ getNeighbors gm p, q ∈ keysA st.gs
  frontierKeys : ∀ p ∈ frontierPos st, p ∈ keysA st.gs
  endFrontier : endp ∈ keysA st.gs → endp ∈ frontierPos st
  cfSpec : ∀ p q, lookupA st.cf p = some q → q ∈ keysA st.gs ∧ p ∈ getNeighbors gm q ∧
    ∃ gp gq, lookupA st.gs p = some gp ∧ lookupA st.gs q = some gq ∧ gq < gp
  cfNone : ∀ p ∈ keysA st.gs, lookupA st.cf p = none → p = start
  gBound : ∀ p g, lookupA st.gs p = some g → g < (keysA st.gs).card
  keysOk : ∀ p ∈ keysA st.gs, p = start ∨ isWalkable gm p.1 p.2 = true

/-- Python list slicing l[-n:]: the newest n entries. -/
def takeNewest (n : ℕ) (l : List WorldEvent) : List WorldEvent :=
  if n < l.length then l.drop (l.length - n) else l

/-- The world state as of the start of the concurrent agent phase of one
tick: counters advanced and expired events cleaned. -/
def preStepWorld (now : ℚ) (w : World) : World :=
  cleanupExpiredEvents now { w with stepCount := w.stepCount + 1, lastStepTime := some now }

/-- The per-agent outcomes of the concurrent phase: every agent sees the
snapshot of the cleaned pre-step world. -/
noncomputable def stepOutcomes (behav : String → WorldSnapshot → Except String AgentAction)
    (now : ℚ) (w : World) : List (String × Except String AgentAction) :=
  (preStepWorld now w).agents.map
    (fun p => (p.1, behav p.1 (getWorldState (preStepWorld now w) now (some p.1))))

/-- The recorded result of one agent outcome: the (normalized) action on
success, a type-error record on an exception. -/
def resultOfOutcome : Except String AgentAction → AgentAction
  | .ok a => { a with type := toEventId a.type }
  | .error m => errorResult m

/-- The world effect of the apply phase: each successful action is applied
in agent order, failed agents contribute nothing. -/
noncomputable def applyOutcomes (now : ℚ)
    (outcomes : List (String × Except String AgentAction)) (w : World) : World :=
  outcomes.foldl
    (fun wacc p =>
      match p.2 with
      | .ok act => processAgentAction now p.1 act wacc
      | .error _ => wacc)
    w

/-- An observation of importance 80, for the reflection-threshold
scenario. -/
def obs80 : Observation :=
  { timestamp := 0
    observerId := "a"
    eventType := "activity"
    description := "watched the town square"
    location := { x := 0, y := 0 }
    importance := 80 }

/-- A concrete memory fixture. -/
def cMem : Memory :=
  { id := "m0", timestamp := 0, description := "met Bob at the park",
    importance := 5, metadata := .reflection }

/-- A concrete oracle fixture (draw always 1, greeting always the first
candidate). -/
def cOracle : WorldOracle :=
  { randDraw := fun _ _ => 1, greetingChoice := fun l => l.headD "" }

/-- Speaker fixture for the talk-radius analysis: conversation radius 5. -/
def cexSpeaker : Agent :=
  { mkAgent 0 "spk" "Speaker" 30 [] "" { x := 0, y := 0, area := "outdoors" } with
      conversationRadius := 5 }

/-- Listener fixture: the default conversation radius 2, at distance 3.5
from the speaker. -/
def cexListener : Agent :=
  mkAgent 0 "lsn" "Listener" 30 [] "" { x := 7 / 2, y := 0, area := "outdoors" }

/-- The two-agent world of the talk-radius analysis. -/
def cexWorld : World :=
  { agents := [("spk", cexSpeaker), ("lsn", cexListener)], map := defaultGameMap 8 8 }

/-- The talk action of the talk-radius analysis. -/
def cexTalk : AgentAction :=
  { type := "conversation", targetAgent := some "lsn", message := some "hello there" }

/-- A pair of default-radius agents within conversation range. -/
def eqSpeaker : Agent := mkAgent 0 "es" "Ann" 30 [] "" { x := 0, y := 0, area := "outdoors" }

/-- The in-range listener fixture. -/
def eqListener : Agent := mkAgent 0 "el" "Ben" 30 [] "" { x := 1, y := 0, area := "outdoors" }

/-- A pair of default-radius agents at distance 3.5 (the out-of-range
scenario of the claim, with every radius at its constructed value 2). -/
def farListener : Agent :=
  mkAgent 0 "fl" "Cal" 30 [] "" { x := 7 / 2, y := 0, area := "outdoors" }

/-- The world holding the three default-radius agents. -/
def eqWorld : World :=
  { agents := [("es", eqSpeaker), ("el", eqListener), ("fl", farListener)]
    map := defaultGameMap 8 8 }

/-- An empty world fixture for the snapshot-purity analysis. -/
def w9 : World := { agents := [], map := defaultGameMap 4 4 }

/-- Talk action aimed at the in-range default-radius listener. -/
def eqTalkNear : AgentAction :=
  { type := "conversation", targetAgent := some "el", message := some "good morning" }

/-- Talk action aimed at the out-of-range default-radius listener. -/
def eqTalkFar : AgentAction :=
  { type := "conversation", targetAgent := some "fl", message := some "good morning" }

/-- The state after a successful relaxation push of neighbor nb from cur. -/
def pushState (endp cur : GPos) (st : AState) (nb : GPos) : AState :=
  { gs := insertA st.gs nb ((lookupA st.gs cur).getD 0 + 1)
    fs := insertA st.fs nb ((lookupA st.gs cur).getD 0 + 1 + heuristic nb endp)
    cf := insertA st.cf nb cur
    frontier := ((lookupA st.gs cur).getD 0 + 1 + heuristic nb endp, nb) :: st.frontier }

/-! Theorems.  Each claim is settled by one theorem (with its witness and,
for corrected claims, its counterexample); the supporting lemmas come
first. -/

theorem withIdx_get? (l : List α) (n i : ℕ) :
    (withIdx l n).get? i = (l.get? i).map (fun a => (n + i, a)) := by
  induction l generalizing n i with
  | nil => simp [withIdx]
  | cons a l ih =>
    cases i with
    | zero => simp [withIdx]
    | succ j =>
      show (withIdx l (n + 1)).get? j = (l.get? j).map (fun a => (n + (j + 1), a))
      rw [ih (n + 1) j]
      have harg : (fun a : α => (n + 1 + j, a)) = (fun a : α => (n + (j + 1), a)) := by
        funext a
        simp [Nat.add_assoc, Nat.add_comm 1 j]
      rw [harg]

theorem withIdx_length (l : List α) (n : ℕ) : (withIdx l n).length = l.length := by
  induction l generalizing n with
  | nil => rfl
  | cons a l ih => simp [withIdx, ih]

theorem withIdx_mem {l : List α} {n : ℕ} {p : ℕ × α} (h : p ∈ withIdx l n) :
    n ≤ p.1 ∧ l.get? (p.1 - n) = some p.2 := by
  induction l generalizing n with
  | nil => simp [withIdx] at h
  | cons a l ih =>
    simp only [withIdx, List.mem_cons] at h
    rcases h with h | h
    · subst h; simp
    · obtain ⟨h1, h2⟩ := ih h
      refine ⟨by omega, ?_⟩
      have heq : p.1 - n = (p.1 - (n + 1)) + 1 := by omega
      rw [heq]
      simpa using h2

theorem withIdx_map_fst_nodup (l : List α) (n : ℕ) :
    ((withIdx l n).map Prod.fst).Nodup := by
  induction l generalizing n with
  | nil => simp [withIdx]
  | cons a l ih =>
    simp only [withIdx, List.map_cons, List.nodup_cons]
    refine ⟨fun hmem => ?_, ih (n + 1)⟩
    obtain ⟨p, hp, hfst⟩ := List.mem_map.mp hmem
    have := (withIdx_mem hp).1
    omega

/-- C3 counterexample: the claim says add_reflection adds the new memory's
importance to importance_sum just as add_observation does; in the code
add_reflection leaves importance_sum untouched, so a fresh stream still
has importance_sum 0 (not 8) after a reflection of importance 8. -/
theorem addReflection_importanceSum_cex :
    ((addReflection (mkMemoryStream "a") 0 "learned a lesson" 8).2).importanceSum = 0 ∧
    (0 : ℚ) ≠ 8 := by
  refine ⟨rfl, by norm_num⟩

/-- C3 (amended): importance_sum starts at 0 with threshold 150; every
add_observation adds the new memory's importance to it, while
add_reflection only stores the tagged reflection and leaves it unchanged;
should_reflect holds exactly when importance_sum has reached the
threshold, so after observations of importance 80 and 80 it becomes true
after the second addition, stays true under further non-negative
additions, and becomes false again after reset_importance_sum. -/
theorem importanceSum_spec :
    (∀ ms o, ((addObservation ms o).2).importanceSum = ms.importanceSum + o.importance)
    ∧ (∀ ms (now : ℚ) insight imp,
        ((addReflection ms now insight imp).2).importanceSum = ms.importanceSum
        ∧ ∃ m, (addReflection ms now insight imp).2.reflections = ms.reflections ++ [m]
            ∧ m.metadata = MemMeta.reflection ∧ m.importance = imp ∧ m.description = insight)
    ∧ (∀ ms, shouldReflect ms = true ↔ ms.reflectionThreshold ≤ ms.importanceSum)
    ∧ (∀ aid, (mkMemoryStream aid).importanceSum = 0
        ∧ (mkMemoryStream aid).reflectionThreshold = 150)
    ∧ (shouldReflect (addObservation (mkMemoryStream "a") obs80).2 = false
       ∧ shouldReflect (addObservation (addObservation (mkMemoryStream "a") obs80).2 obs80).2
          = true
       ∧ (∀ o : Observation, 0 ≤ o.importance →
            shouldReflect (addObservation
              (addObservation (addObservation (mkMemoryStream "a") obs80).2 obs80).2 o).2
              = true)
       ∧ shouldReflect (resetImportanceSum
            (addObservation (addObservation (mkMemoryStream "a") obs80).2 obs80).2) = false) := by
  refine ⟨fun ms o => rfl, fun ms now insight imp => ⟨rfl, ?_⟩, fun ms => ?_, fun aid => ⟨rfl, rfl⟩,
    ?_, ?_, ?_, ?_⟩
  · exact ⟨_, rfl, rfl, rfl, rfl⟩
  · simp [shouldReflect]
  · simp only [shouldReflect, addObservation, mkMemoryStream, obs80, decide_eq_false_iff_not]
    norm_num
  · simp only [shouldReflect, addObservation, mkMemoryStream, obs80, decide_eq_true_eq]
    norm_num
  · intro o h
    simp only [shouldReflect, addObservation, mkMemoryStream, obs80, decide_eq_true_eq]
    show (150 : ℚ) ≤ 0 + 80 + 80 + o.importance
    linarith
  · simp only [shouldReflect, resetImportanceSum, addObservation, mkMemoryStream, obs80,
      decide_eq_false_iff_not]
    norm_num

/-- C3 witness: the amended theorem applied at the concrete observation of
importance 80, its non-negativity hypothesis discharged there. -/
theorem importanceSum_spec_witness :
    (0 : ℚ) ≤ obs80.importance ∧
    shouldReflect (addObservation
      (addObservation (addObservation (mkMemoryStream "a") obs80).2 obs80).2 obs80).2 = true :=
  ⟨by norm_num [obs80],
   importanceSum_spec.2.2.2.2.2.2.1 obs80 (by norm_num [obs80])⟩

/-- C6: holding the memory (hence its importance and keywords) and the
query fixed, the retrieval score is strictly decreasing in the hours
elapsed since the memory timestamp. -/
theorem retrievalScore_recency_strict_anti :
    ∀ (m : Memory) (qk : List String) (now1 now2 : ℚ),
      hoursSince now1 m.timestamp < hoursSince now2 m.timestamp →
      getRetrievalScore now2 m qk < getRetrievalScore now1 m qk := by
  intro m qk n1 n2 h
  unfold getRetrievalScore getRecencyScore
  have hc : ((hoursSince n1 m.timestamp : ℚ) : ℝ) < ((hoursSince n2 m.timestamp : ℚ) : ℝ) := by
    exact_mod_cast h
  have hexp : Real.exp (-(hoursSince n2 m.timestamp : ℝ) / 24) <
      Real.exp (-(hoursSince n1 m.timestamp : ℝ) / 24) := by
    apply Real.exp_lt_exp.mpr
    linarith
  linarith

/-- C6 witness: the theorem applied to the concrete memory at hours 0
versus hours 1, the strict-inequality hypothesis discharged there. -/
theorem retrievalScore_recency_strict_anti_witness :
    hoursSince 0 cMem.timestamp < hoursSince 3600 cMem.timestamp ∧
    getRetrievalScore 3600 cMem ["park"] < getRetrievalScore 0 cMem ["park"] :=
  ⟨by norm_num [hoursSince, minutesSince, cMem],
   retrievalScore_recency_strict_anti cMem ["park"] 0 3600
     (by norm_num [hoursSince, minutesSince, cMem])⟩

theorem updateInternalState_range (a : Agent) :
    0 ≤ (updateInternalState a).energy ∧ (updateInternalState a).energy ≤ 100
    ∧ -1 ≤ (updateInternalState a).mood ∧ (updateInternalState a).mood ≤ 1 := by
  simp only [updateInternalState]
  exact ⟨le_max_left _ _, max_le (by norm_num) (min_le_left _ _),
    le_max_left _ _, max_le (by norm_num) (min_le_left _ _)⟩

/-- C10: a freshly constructed agent starts with energy 100 and mood 0,
and the per-tick internal-state update always clamps energy back into
0..100 and mood into -1..1, so after any positive number of ticks both
stay in range (energy and mood are written nowhere else). -/
theorem energy_mood_invariant :
    (∀ (now : ℚ) (aid name : String) (age : ℕ) (pers : List (String × ℚ)) (bg : String)
        (pos : Position) (occ : String) (wa : Option String),
      (mkAgent now aid name age pers bg pos occ wa).energy = 100
      ∧ (mkAgent now aid name age pers bg pos occ wa).mood = 0)
    ∧ (∀ a : Agent,
        0 ≤ (updateInternalState a).energy ∧ (updateInternalState a).energy ≤ 100
        ∧ -1 ≤ (updateInternalState a).mood ∧ (updateInternalState a).mood ≤ 1)
    ∧ (∀ (a : Agent) (k : ℕ), 0 < k →
        0 ≤ (updateInternalState^[k] a).energy ∧ (updateInternalState^[k] a).energy ≤ 100
        ∧ -1 ≤ (updateInternalState^[k] a).mood ∧ (updateInternalState^[k] a).mood ≤ 1) := by
  refine ⟨fun _ _ _ _ _ _ _ _ _ => ⟨rfl, rfl⟩, updateInternalState_range, ?_⟩
  intro a k hk
  obtain ⟨j, rfl⟩ : ∃ j, k = j + 1 := ⟨k - 1, by omega⟩
  rw [Function.iterate_succ_apply']
  exact updateInternalState_range _

/-- C10 witness: the invariant applied after three ticks from a concrete
agent, the positivity hypothesis discharged there. -/
theorem energy_mood_invariant_witness :
    0 < 3 ∧
    (0 ≤ (updateInternalState^[3] eqSpeaker).energy
     ∧ (updateInternalState^[3] eqSpeaker).energy ≤ 100
     ∧ -1 ≤ (updateInternalState^[3] eqSpeaker).mood
     ∧ (updateInternalState^[3] eqSpeaker).mood ≤ 1) :=
  ⟨by norm_num, energy_mood_invariant.2.2 eqSpeaker 3 (by norm_num)⟩

/-- C9 counterexample: get_world_state embeds the GameTime.now() reading
(the formatted current_time, time_of_day and weekday), so two calls that
observe different clock readings return different snapshots even though
neither call mutates any world or agent state — repeated calls are
identical only while the clock reading is unchanged. -/
theorem getWorldState_clock_cex :
    (runGetWorldState w9 0 none).2 = w9 ∧ (runGetWorldState w9 3600 none).2 = w9 ∧
    getWorldState w9 0 none ≠ getWorldState w9 3600 none := by
  refine ⟨rfl, rfl, fun h => ?_⟩
  have hc := congrArg WorldSnapshot.currentTime h
  have h0 : (getWorldState w9 0 none).currentTime = 0 := rfl
  have h1 : (getWorldState w9 3600 none).currentTime = 3600 := rfl
  rw [h0, h1] at hc
  norm_num at hc

/-- C9 (amended): get_status and get_world_state only read: at a fixed
clock reading each call returns the same value as any repetition and
leaves the agent and world state exactly as it was. -/
theorem getStatus_getWorldState_idem :
    (∀ a : Agent, runGetStatus a = (getStatus a, a)
      ∧ (runGetStatus (runGetStatus a).2).1 = (runGetStatus a).1)
    ∧ (∀ (w : World) (now : ℚ) (fa : Option String),
        runGetWorldState w now fa = (getWorldState w now fa, w)
        ∧ (runGetWorldState (runGetWorldState w now fa).2 now fa).1
            = (runGetWorldState w now fa).1) :=
  ⟨fun _ => ⟨rfl, rfl⟩, fun _ _ _ => ⟨rfl, rfl⟩⟩

theorem cleanup_foldl (now : ℚ) (l acc1 acc2 : List WorldEvent) :
    l.foldl (fun (acc : List WorldEvent × List WorldEvent) e =>
        if eventExpired now e then (acc.1, acc.2 ++ [e]) else (acc.1 ++ [e], acc.2))
      (acc1, acc2)
    = (acc1 ++ l.filter (fun e => !eventExpired now e), acc2 ++ l.filter (eventExpired now)) := by
  induction l generalizing acc1 acc2 with
  | nil => simp
  | cons e t ih =>
    cases h : eventExpired now e with
    | true => simp [List.foldl_cons, List.filter_cons, h, ih]
    | false => simp [List.foldl_cons, List.filter_cons, h, ih]

theorem getWorldState_events (w : World) (now : ℚ) (fa : Option String) :
    (getWorldState w now fa).events = w.currentEvents := by
  cases fa with
  | none => rfl
  | some aid =>
    unfold getWorldState
    split
    · rfl
    · split <;> rfl

/-- C8: within one tick, event expiry runs before any agent's cognitive
cycle: the pre-step world keeps exactly the unexpired live events, the
expired ones (duration set and elapsed minutes at least the duration) are
appended to the history, the history is truncated to its newest 1000
entries (a suffix of the combined list, never longer than 1000), and the
snapshot every agent receives during the tick lists exactly the unexpired
events. -/
theorem cleanup_expired_events_spec :
    ∀ (now : ℚ) (w : World),
      (preStepWorld now w).currentEvents
          = w.currentEvents.filter (fun e => !eventExpired now e)
      ∧ (preStepWorld now w).eventHistory
          = takeNewest 1000 (w.eventHistory ++ w.currentEvents.filter (eventExpired now))
      ∧ (preStepWorld now w).eventHistory.length ≤ 1000
      ∧ (preStepWorld now w).eventHistory
          <:+ (w.eventHistory ++ w.currentEvents.filter (eventExpired now))
      ∧ ∀ fa, (getWorldState (preStepWorld now w) now fa).events
          = w.currentEvents.filter (fun e => !eventExpired now e) := by
  intro now w
  have hcur : (preStepWorld now w).currentEvents
      = w.currentEvents.filter (fun e => !eventExpired now e) := by
    simp only [preStepWorld, cleanupExpiredEvents]
    rw [cleanup_foldl now w.currentEvents [] []]
    simp
  have hhist : (preStepWorld now w).eventHistory
      = takeNewest 1000 (w.eventHistory ++ w.currentEvents.filter (eventExpired now)) := by
    simp only [preStepWorld, cleanupExpiredEvents, takeNewest]
    rw [cleanup_foldl now w.currentEvents [] []]
    rfl
  refine ⟨hcur, hhist, ?_, ?_, fun fa => ?_⟩
  · rw [hhist]
    unfold takeNewest
    split
    · rename_i hlen
      simp only [List.length_drop]
      omega
    · rename_i hlen
      omega
  · rw [hhist]
    unfold takeNewest
    split
    · exact List.drop_suffix _ _
    · exact List.suffix_refl _
  · rw [getWorldState_events, hcur]

/-- C2 (amended): the distance check of _process_talk is against the
SPEAKER conversation radius (every agent is constructed with the same
radius 2.0, which makes this observationally equal to the listener radius
in reachable states): beyond it the action is silently dropped with no
delivery and no event; within it the message lands in the listener memory
as a received_message observation of importance 4 and exactly one
conversation WorldEvent of duration 5 is appended. -/
theorem processTalk_spec :
    ∀ (w : World) (now : ℚ) (sid tid : String) (act : AgentAction) (speaker target : Agent),
      w.agents.lookup sid = some speaker →
      act.targetAgent = some tid →
      w.agents.lookup tid = some target →
      ((speaker.conversationRadius : ℝ) < distanceTo speaker.position target.position →
        processTalk now sid act w = w)
      ∧ (distanceTo speaker.position target.position ≤ (speaker.conversationRadius : ℝ) →
        processTalk now sid act w =
          { w with
              agents := dictUpdate w.agents tid
                (receiveMessage target now sid (act.message.getD "") speaker.name)
              currentEvents := w.currentEvents ++
                [{ id := "uuid4", timestamp := now, eventType := "conversation"
                   description := speaker.name ++ " said to " ++ target.name ++ ": " ++
                     act.message.getD ""
                   location := speaker.position
                   participants := [sid, tid]
                   metadata := .conversationMeta (act.message.getD "") sid tid
                   duration := some 5 }]
              stats := { w.stats with
                          totalConversations := w.stats.totalConversations + 1
                          totalInteractions := w.stats.totalInteractions + 1 } }
        ∧ ∃ m, (receiveMessage target now sid (act.message.getD "") speaker.name).memory.observations
              = target.memory.observations ++ [m]
            ∧ m.description = speaker.name ++ " said: " ++ act.message.getD ""
            ∧ m.importance = 4
            ∧ m.metadata = MemMeta.obs "received_message" target.position [sid] target.agentId) := by
  intro w now sid tid act speaker target hs hta ht
  constructor
  · intro hfar
    simp only [processTalk, hs, hta, ht]
    rw [if_pos (decide_eq_true hfar)]
  · intro hnear
    have hd : decide ((speaker.conversationRadius : ℝ) <
        distanceTo speaker.position target.position) = false :=
      decide_eq_false (not_lt.mpr hnear)
    refine ⟨?_, ⟨_, rfl, rfl, rfl, rfl⟩⟩
    simp only [processTalk, hs, hta, ht]
    rw [hd]
    rfl

theorem cex_distance : distanceTo cexSpeaker.position cexListener.position = 7 / 2 := by
  have h1 : cexSpeaker.position = { x := 0, y := 0, area := "outdoors" } := rfl
  have h2 : cexListener.position = { x := 7 / 2, y := 0, area := "outdoors" } := rfl
  rw [h1, h2]
  unfold distanceTo
  dsimp only
  push_cast
  rw [show ((0 : ℝ) - 7 / 2) ^ 2 + ((0 : ℝ) - 0) ^ 2 = ((7 : ℝ) / 2) ^ 2 by ring]
  exact Real.sqrt_sq (by norm_num)

/-- C2 counterexample: with the speaker conversation radius at 5 and the
listener at the default 2 and the pair at distance 3.5, the distance
exceeds the LISTENER radius, yet the talk is processed: the message is
delivered into the listener memory and a conversation event of duration 5
is appended — the code validates against the speaker radius, not the
listener radius as claimed. -/
theorem processTalk_listener_radius_cex :
    cexSpeaker.conversationRadius = 5 ∧
    cexListener.conversationRadius = 2 ∧
    distanceTo cexSpeaker.position cexListener.position = 7 / 2 ∧
    (cexListener.conversationRadius : ℝ) < distanceTo cexSpeaker.position cexListener.position ∧
    (processTalk 0 "spk" cexTalk cexWorld).currentEvents.map
        (fun e => (e.eventType, e.duration)) = [("conversation", some (5 : ℚ))] ∧
    ((processTalk 0 "spk" cexTalk cexWorld).agents.lookup "lsn").map
        (fun a => a.memory.observations.length) = some 2 := by
  have hnear : distanceTo cexSpeaker.position cexListener.position ≤
      (cexSpeaker.conversationRadius : ℝ) := by
    rw [cex_distance, show cexSpeaker.conversationRadius = 5 from rfl]
    push_cast
    norm_num
  obtain ⟨heq, -⟩ :=
    (processTalk_spec cexWorld 0 "spk" "lsn" cexTalk cexSpeaker cexListener rfl rfl rfl).2 hnear
  refine ⟨rfl, rfl, cex_distance, ?_, ?_, ?_⟩
  · rw [cex_distance, show cexListener.conversationRadius = 2 from rfl]
    push_cast
    norm_num
  · rw [heq]
    rfl
  · rw [heq]
    rfl

/-- C2 witness: the amended theorem applied in the default-radius world:
the 3.5-distance talk is dropped leaving the world unchanged (the claimed
scenario), and the 1.0-distance talk produces exactly one conversation
event of duration 5. -/
theorem processTalk_spec_witness :
    (processTalk 0 "es" eqTalkFar eqWorld = eqWorld) ∧
    (processTalk 0 "es" eqTalkNear eqWorld).currentEvents.map
        (fun e => (e.eventType, e.duration)) = [("conversation", some (5 : ℚ))] := by
  have hfar : (eqSpeaker.conversationRadius : ℝ) <
      distanceTo eqSpeaker.position farListener.position := by
    have h1 : eqSpeaker.position = { x := 0, y := 0, area := "outdoors" } := rfl
    have h2 : farListener.position = { x := 7 / 2, y := 0, area := "outdoors" } := rfl
    rw [h1, h2, show eqSpeaker.conversationRadius = 2 from rfl]
    unfold distanceTo
    dsimp only
    push_cast
    rw [show ((0 : ℝ) - 7 / 2) ^ 2 + ((0 : ℝ) - 0) ^ 2 = ((7 : ℝ) / 2) ^ 2 by ring,
      Real.sqrt_sq (by norm_num)]
    norm_num
  have hnear : distanceTo eqSpeaker.position eqListener.position ≤
      (eqSpeaker.conversationRadius : ℝ) := by
    have h1 : eqSpeaker.position = { x := 0, y := 0, area := "outdoors" } := rfl
    have h2 : eqListener.position = { x := 1, y := 0, area := "outdoors" } := rfl
    rw [h1, h2, show eqSpeaker.conversationRadius = 2 from rfl]
    unfold distanceTo
    dsimp only
    push_cast
    rw [show ((0 : ℝ) - 1) ^ 2 + ((0 : ℝ) - 0) ^ 2 = (1 : ℝ) ^ 2 by ring,
      Real.sqrt_sq (by norm_num)]
    norm_num
  refine ⟨(processTalk_spec eqWorld 0 "es" "fl" eqTalkFar eqSpeaker farListener
    rfl rfl rfl).1 hfar, ?_⟩
  obtain ⟨heq, -⟩ := (processTalk_spec eqWorld 0 "es" "el" eqTalkNear eqSpeaker eqListener
    rfl rfl rfl).2 hnear
  rw [heq]
  rfl

theorem assessNeeds_bounds (area tod : String) (mems : List Memory) :
    (8 : ℚ) / 10 ≤ (assessNeeds 15 area tod mems).energy
    ∧ (assessNeeds 15 area tod mems).social ≤ 7 / 10
    ∧ (assessNeeds 15 area tod mems).work ≤ 7 / 10 := by
  unfold assessNeeds
  norm_num
  split_ifs <;> norm_num

theorem selectActiveGoal_low_energy (n : Needs) (now : ℚ)
    (hn : (8 : ℚ) / 10 ≤ n.energy) (hs : n.social ≤ 7 / 10) (hw : n.work ≤ 7 / 10) :
    selectActiveGoal initialBasicGoals n now
      = some { id := "maintain_energy", description := "Keep energy levels above 30%",
               priority := 9 } := by
  have h1 : ¬((9 : ℚ) * 0.1 + n.energy * 0.9 < 7 * 0.1 + n.social * 0.7) := by
    intro h
    linarith
  have h2 : ¬((9 : ℚ) * 0.1 + n.energy * 0.9 < 6 * 0.1 + n.work * 0.6) := by
    intro h
    linarith
  have h3 : ¬((9 : ℚ) * 0.1 + n.energy * 0.9 < 5 * 0.1) := by
    intro h
    linarith
  unfold selectActiveGoal
  simp [initialBasicGoals, goalUrgency, argmaxFirst, h1, h2, h3]

theorem getOrCreatePlan_no_active (ps : PlannerState) (goal : Goal) (ctx : PlanCtx)
    (now : ℚ) (greeting : String)
    (hplans : ∀ p ∈ ps.plans, ¬(p.status = "active" ∧ p.actions ≠ [])) :
    getOrCreatePlan ps goal ctx now greeting = createPlanForGoal ps goal ctx now greeting := by
  unfold getOrCreatePlan
  cases hf : ps.plans.find? fun p => p.goalId = goal.id ∧ p.status = "active" with
  | none => rfl
  | some p =>
    have hmem := List.mem_of_find?_eq_some hf
    have hpred := List.find?_some hf
    rw [decide_eq_true_eq] at hpred
    have hempty : p.actions = [] := by
      by_contra hne
      exact hplans p hmem ⟨hpred.2, hne⟩
    simp [hempty]

/-- C7: with energy 15, the default starter goals, no deadlines and no
usable active plan, the need vector has energy at least 0.8, the most
urgent goal is maintain_energy, and plan_next_action returns the sleep
action of the low-energy plan (an energy-restoring action of type sleep,
hence sleep-or-eat as claimed). -/
theorem planNextAction_low_energy :
    ∀ (plans0 : List Plan) (cp : Option Plan) (ctx : PlanCtx) (tod : String)
      (mems : List Memory) (now : ℚ) (greeting : String),
      ctx.energy = 15 →
      (∀ p ∈ plans0, ¬(p.status = "active" ∧ p.actions ≠ [])) →
      (8 : ℚ) / 10 ≤ (assessNeeds ctx.energy ctx.area tod mems).energy
      ∧ (selectActiveGoal initialBasicGoals (assessNeeds ctx.energy ctx.area tod mems) now).map
          (fun g => g.id) = some "maintain_energy"
      ∧ (planNextAction { goals := initialBasicGoals, plans := plans0, currentPlan := cp }
            ctx tod mems now greeting).1
          = some { type := "sleep", duration := some 60,
                   targetPosition := some { x := 10, y := 10, area := "home" },
                   description := some "Take a nap to restore energy" } := by
  intro plans0 cp ctx tod mems now greeting hE hplans
  obtain ⟨hbe, hbs, hbw⟩ := assessNeeds_bounds ctx.area tod mems
  have hsel := selectActiveGoal_low_energy (assessNeeds 15 ctx.area tod mems) now hbe hbs hbw
  refine ⟨by rw [hE]; exact hbe, by rw [hE, hsel]; rfl, ?_⟩
  unfold planNextAction
  rw [hE]
  show ((match selectActiveGoal initialBasicGoals (assessNeeds 15 ctx.area tod mems) now with
    | none => _
    | some goal => _) : Option AgentAction × PlannerState).1 = _
  rw [hsel]
  dsimp only
  rw [getOrCreatePlan_no_active _ _ _ _ _ hplans]
  simp only [createPlanForGoal, createEnergyPlan]
  rw [hE]
  norm_num

/-- C7 witness: the theorem applied at a concrete context with energy 15
and an empty plan log, both hypotheses discharged there. -/
theorem planNextAction_low_energy_witness :
    (planNextAction { goals := initialBasicGoals, plans := [], currentPlan := none }
        { energy := 15, area := "outdoors" } "afternoon" [] 0 "hi").1
      = some { type := "sleep", duration := some 60,
               targetPosition := some { x := 10, y := 10, area := "home" },
               description := some "Take a nap to restore energy" } :=
  (planNextAction_low_energy [] none { energy := 15, area := "outdoors" } "afternoon" [] 0 "hi"
    rfl (by simp)).2.2

theorem worldStep_foldl (now : ℚ) (outcomes : List (String × Except String AgentAction))
    (acc : List (String × AgentAction)) (w : World) :
    outcomes.foldl
      (fun (acc : List (String × AgentAction) × World) p =>
        match p.2 with
        | Except.ok act =>
          (acc.1 ++ [(p.1, { act with type := toEventId act.type })],
           processAgentAction now p.1 act acc.2)
        | Except.error msg => (acc.1 ++ [(p.1, errorResult msg)], acc.2))
      (acc, w)
    = (acc ++ outcomes.map (fun p => (p.1, resultOfOutcome p.2)),
       applyOutcomes now outcomes w) := by
  induction outcomes generalizing acc w with
  | nil => simp [applyOutcomes]
  | cons p t ih =>
    obtain ⟨aid, oc⟩ := p
    cases oc with
    | ok act =>
      rw [List.foldl_cons]
      dsimp only
      rw [ih]
      simp [applyOutcomes, resultOfOutcome]
    | error msg =>
      rw [List.foldl_cons]
      dsimp only
      rw [ih]
      simp [applyOutcomes, resultOfOutcome]

/-- C1: in one tick, each agent's recorded result is a function of its own
outcome alone — an agent whose step raises message m is recorded as a
type-error record carrying m, every other agent's result is its own
(normalized) action — the world effects of the apply phase are exactly the
successful agents' actions folded in order (a failed agent contributes
nothing), and the tick still completes: interaction resolution and the
statistics tally are applied on top in every case. -/
theorem worldStep_error_isolation :
    ∀ (behav : String → WorldSnapshot → Except String AgentAction) (o : WorldOracle)
      (now : ℚ) (w : World),
      (worldStep behav o now w).1
          = (stepOutcomes behav now w).map (fun p => (p.1, resultOfOutcome p.2))
      ∧ (worldStep behav o now w).2
          = updateStats ((stepOutcomes behav now w).map (fun p => (p.1, resultOfOutcome p.2)))
              (processInteractions o now
                (applyOutcomes now (stepOutcomes behav now w) (preStepWorld now w)))
      ∧ ∀ aid msg, (aid, Except.error msg) ∈ stepOutcomes behav now w →
          (aid, errorResult msg) ∈ (worldStep behav o now w).1 := by
  intro behav o now w
  have hstep : worldStep behav o now w
      = ((stepOutcomes behav now w).map (fun p => (p.1, resultOfOutcome p.2)),
         updateStats ((stepOutcomes behav now w).map (fun p => (p.1, resultOfOutcome p.2)))
           (processInteractions o now
             (applyOutcomes now (stepOutcomes behav now w) (preStepWorld now w)))) := by
    unfold worldStep
    dsimp only
    rw [worldStep_foldl]
    rfl
  refine ⟨by rw [hstep], by rw [hstep], ?_⟩
  intro aid msg hmem
  rw [hstep]
  exact List.mem_map.mpr ⟨(aid, Except.error msg), hmem, rfl⟩

/-- C1 witness: the theorem applied in the concrete two-agent world where
every agent raises; the failing agent membership hypothesis is discharged
at the head of the outcome list. -/
theorem worldStep_error_isolation_witness :
    ("spk", errorResult "boom")
      ∈ (worldStep (fun _ _ => Except.error "boom") cOracle 0 cexWorld).1 :=
  (worldStep_error_isolation (fun _ _ => Except.error "boom") cOracle 0 cexWorld).2.2
    "spk" "boom" (List.Mem.head _)

theorem getRetrievalScore_bump (now : ℚ) (m : Memory) (qk : List String) :
    getRetrievalScore now (bumpMemory now m) qk = getRetrievalScore now m qk := rfl

theorem scoredMemories_mem {ms : MemoryStream} {qk : List String} {now : ℚ} {t : ScoredMem}
    (h : t ∈ scoredMemories ms qk now) :
    t.1 = getRetrievalScore now t.2.2 qk ∧ (allMemories ms).get? t.2.1 = some t.2.2 := by
  obtain ⟨p, hp, rfl⟩ := List.mem_map.mp h
  obtain ⟨-, h2⟩ := withIdx_mem hp
  exact ⟨rfl, by simpa using h2⟩

theorem sortedScored_mem {ms : MemoryStream} {qk : List String} {now : ℚ} {t : ScoredMem}
    (h : t ∈ sortedScoredMemories ms qk now) :
    t.1 = getRetrievalScore now t.2.2 qk ∧ (allMemories ms).get? t.2.1 = some t.2.2 :=
  scoredMemories_mem ((List.perm_insertionSort scoreDesc _).subset h)

theorem pickedScored_sublist (ms : MemoryStream) (qk : List String) (now : ℚ) (limit : ℕ) :
    List.Sublist (pickedScored ms qk now limit) (sortedScoredMemories ms qk now) :=
  (List.filter_sublist _).trans (List.take_sublist _ _)

theorem pickedScored_mem {ms : MemoryStream} {qk : List String} {now : ℚ} {limit : ℕ}
    {t : ScoredMem} (h : t ∈ pickedScored ms qk now limit) :
    t.1 = getRetrievalScore now t.2.2 qk ∧ (allMemories ms).get? t.2.1 = some t.2.2
    ∧ 0 < t.1 := by
  have hmem := (pickedScored_sublist ms qk now limit).subset h
  have hpos : 0 < t.1 := by
    have := (List.mem_filter.mp h).2
    exact of_decide_eq_true this
  exact ⟨(sortedScored_mem hmem).1, (sortedScored_mem hmem).2, hpos⟩

theorem pickedScored_pairwise (ms : MemoryStream) (qk : List String) (now : ℚ) (limit : ℕ) :
    (pickedScored ms qk now limit).Pairwise scoreDesc :=
  (List.sorted_insertionSort scoreDesc _).sublist (pickedScored_sublist ms qk now limit)

theorem scoredMemories_map_idx (ms : MemoryStream) (qk : List String) (now : ℚ) :
    (scoredMemories ms qk now).map (fun t => t.2.1)
      = (withIdx (allMemories ms) 0).map Prod.fst := by
  unfold scoredMemories
  rw [List.map_map]
  rfl

theorem pickedIdx_nodup (ms : MemoryStream) (qk : List String) (now : ℚ) (limit : ℕ) :
    ((pickedScored ms qk now limit).map (fun t => t.2.1)).Nodup := by
  have hsub : List.Sublist ((pickedScored ms qk now limit).map (fun t => t.2.1))
      ((sortedScoredMemories ms qk now).map (fun t => t.2.1)) :=
    List.Sublist.map _ (pickedScored_sublist ms qk now limit)
  have hperm : List.Perm ((sortedScoredMemories ms qk now).map (fun t => t.2.1))
      ((scoredMemories ms qk now).map (fun t => t.2.1)) :=
    (List.perm_insertionSort scoreDesc _).map _
  have hnd : ((scoredMemories ms qk now).map (fun t => t.2.1)).Nodup := by
    rw [scoredMemories_map_idx]
    exact withIdx_map_fst_nodup _ _
  exact hsub.nodup (hperm.symm.nodup hnd)

theorem retrieveRelevant_allMemories (ms : MemoryStream) (query : String) (limit : ℕ)
    (now : ℚ) :
    allMemories (retrieveRelevant ms query limit now).2
      = (withIdx (allMemories ms) 0).map
          (fun p : ℕ × Memory =>
            if p.1 ∈ (pickedScored ms (extractKeywords query) now limit).map (fun t => t.2.1)
            then bumpMemory now p.2 else p.2) := by
  simp only [retrieveRelevant, allMemories]
  exact List.take_append_drop _ _

theorem retrieveRelevant_get? (ms : MemoryStream) (query : String) (limit : ℕ) (now : ℚ)
    (i : ℕ) :
    (allMemories (retrieveRelevant ms query limit now).2).get? i
      = ((allMemories ms).get? i).map
          (fun m =>
            if i ∈ (pickedScored ms (extractKeywords query) now limit).map (fun t => t.2.1)
            then bumpMemory now m else m) := by
  rw [retrieveRelevant_allMemories, List.get?_map, withIdx_get?]
  cases (allMemories ms).get? i <;> simp

/-- C5: retrieve_relevant returns at most limit memories, ordered
descending by retrieval score, all with positive score; the returned list
is exactly the picked scored entries with access_count incremented and
last_accessed set to now, the picked positions are distinct (so each
returned memory is bumped exactly once), and the stored log keeps its
length with exactly the picked positions bumped and all others
unchanged. -/
theorem retrieveRelevant_spec :
    ∀ (ms : MemoryStream) (query : String) (limit : ℕ) (now : ℚ),
      (retrieveRelevant ms query limit now).1.length ≤ limit
      ∧ (retrieveRelevant ms query limit now).1.Pairwise
          (fun m1 m2 => getRetrievalScore now m2 (extractKeywords query)
            ≤ getRetrievalScore now m1 (extractKeywords query))
      ∧ (∀ m ∈ (retrieveRelevant ms query limit now).1,
          0 < getRetrievalScore now m (extractKeywords query))
      ∧ (retrieveRelevant ms query limit now).1
          = (pickedScored ms (extractKeywords query) now limit).map
              (fun t => bumpMemory now t.2.2)
      ∧ ((pickedScored ms (extractKeywords query) now limit).map (fun t => t.2.1)).Nodup
      ∧ (allMemories (retrieveRelevant ms query limit now).2).length
          = (allMemories ms).length
      ∧ ∀ i : ℕ,
          (i ∈ (pickedScored ms (extractKeywords query) now limit).map (fun t => t.2.1) →
            (allMemories (retrieveRelevant ms query limit now).2).get? i
              = ((allMemories ms).get? i).map (bumpMemory now))
          ∧ (i ∉ (pickedScored ms (extractKeywords query) now limit).map (fun t => t.2.1) →
            (allMemories (retrieveRelevant ms query limit now).2).get? i
              = (allMemories ms).get? i) := by
  intro ms query limit now
  have hres : (retrieveRelevant ms query limit now).1
      = (pickedScored ms (extractKeywords query) now limit).map
          (fun t => bumpMemory now t.2.2) := rfl
  refine ⟨?_, ?_, ?_, hres, pickedIdx_nodup _ _ _ _, ?_, ?_⟩
  · rw [hres, List.length_map]
    refine le_trans (List.length_filter_le _ _) ?_
    rw [List.length_take]
    exact min_le_left _ _
  · rw [hres, List.pairwise_map]
    refine List.Pairwise.imp_of_mem ?_ (pickedScored_pairwise ms _ now limit)
    intro a b ha hb hr
    rw [getRetrievalScore_bump, getRetrievalScore_bump,
      ← (pickedScored_mem ha).1, ← (pickedScored_mem hb).1]
    exact hr
  · intro m hm
    rw [hres] at hm
    obtain ⟨t, ht, rfl⟩ := List.mem_map.mp hm
    rw [getRetrievalScore_bump, ← (pickedScored_mem ht).1]
    exact (pickedScored_mem ht).2.2
  · rw [retrieveRelevant_allMemories, List.length_map, withIdx_length]
  · intro i
    constructor
    · intro hi
      rw [retrieveRelevant_get? ms query limit now i]
      cases (allMemories ms).get? i <;> simp [hi]
    · intro hi
      rw [retrieveRelevant_get? ms query limit now i]
      cases (allMemories ms).get? i <;> simp [hi]

/-- C5 witness: the theorem instantiated at a concrete fresh stream and
query. -/
theorem retrieveRelevant_spec_witness :
    (retrieveRelevant (mkMemoryStream "w5") "hello town" 5 0).1.length ≤ 5 ∧
    ∀ m ∈ (retrieveRelevant (mkMemoryStream "w5") "hello town" 5 0).1,
      0 < getRetrievalScore 0 m (extractKeywords "hello town") :=
  ⟨(retrieveRelevant_spec (mkMemoryStream "w5") "hello town" 5 0).1,
   (retrieveRelevant_spec (mkMemoryStream "w5") "hello town" 5 0).2.2.1⟩

theorem mem_keysA {l : List (GPos × β)} {p : GPos} :
    p ∈ keysA l ↔ ∃ v, lookupA l p = some v := by
  induction l with
  | nil => simp [keysA, lookupA]
  | cons kv t ih =>
    obtain ⟨k, v⟩ := kv
    by_cases hk : k = p
    · subst hk
      simp [keysA, lookupA]
    · simp only [keysA, List.map_cons, List.toFinset_cons, Finset.mem_insert, lookupA,
        if_neg hk]
      rw [← keysA, ih]
      simp [Ne.symm hk]

theorem keysA_insertA (l : List (GPos × β)) (k : GPos) (v : β) :
    keysA (insertA l k v) = insert k (keysA l) := by
  simp [keysA, insertA]

theorem lookupA_insertA_self (l : List (GPos × β)) (k : GPos) (v : β) :
    lookupA (insertA l k v) k = some v := by
  simp [lookupA, insertA]

theorem lookupA_insertA_ne (l : List (GPos × β)) (k : GPos) (v : β) {p : GPos} (h : p ≠ k) :
    lookupA (insertA l k v) p = lookupA l p := by
  simp [lookupA, insertA, Ne.symm h]

theorem gsumL_insertA_fresh {gs : List (GPos × ℕ)} {k : GPos} (v : ℕ) (h : k ∉ keysA gs) :
    gsumL (insertA gs k v) = gsumL gs + v := by
  have hcong : ∀ p ∈ keysA gs,
      (lookupA (insertA gs k v) p).getD 0 = (lookupA gs p).getD 0 := by
    intro p hp
    rw [lookupA_insertA_ne gs k v (fun hpk => h (hpk ▸ hp))]
  unfold gsumL
  rw [keysA_insertA, Finset.sum_insert h, lookupA_insertA_self]
  rw [Finset.sum_congr rfl hcong]
  simp only [Option.getD_some]
  omega

theorem gsumL_insertA_shadow {gs : List (GPos × ℕ)} {k : GPos} {v v0 : ℕ}
    (h : lookupA gs k = some v0) :
    gsumL (insertA gs k v) + v0 = gsumL gs + v := by
  have hk : k ∈ keysA gs := mem_keysA.mpr ⟨v0, h⟩
  have hcong : ∀ p ∈ (keysA gs).erase k,
      (lookupA (insertA gs k v) p).getD 0 = (lookupA gs p).getD 0 := by
    intro p hp
    rw [lookupA_insertA_ne gs k v (Finset.ne_of_mem_erase hp)]
  unfold gsumL
  rw [keysA_insertA, Finset.insert_eq_self.mpr hk]
  rw [← Finset.sum_erase_add (keysA gs) _ hk,
    ← Finset.sum_erase_add (keysA gs) (fun p => (lookupA gs p).getD 0) hk]
  rw [Finset.sum_congr rfl hcong, lookupA_insertA_self, h]
  simp only [Option.getD_some]
  omega

theorem isWalkable_bounds {gm : GameMap} {x y : ℤ} (h : isWalkable gm x y = true) :
    0 ≤ x ∧ x < gm.width ∧ 0 ≤ y ∧ y < gm.height := by
  unfold isWalkable at h
  split at h
  · assumption
  · exact absurd h (by simp)

theorem keysA_card_le {gm : GameMap} {start : GPos} {gs : List (GPos × ℕ)}
    (hok : ∀ p ∈ keysA gs, p = start ∨ isWalkable gm p.1 p.2 = true) :
    (keysA gs).card ≤ kmaxOf gm := by
  have hsub : keysA gs ⊆ insert start (boundedCells gm) := by
    intro p hp
    rcases hok p hp with rfl | hw
    · exact Finset.mem_insert_self _ _
    · refine Finset.mem_insert_of_mem ?_
      obtain ⟨h1, h2, h3, h4⟩ := isWalkable_bounds hw
      unfold boundedCells
      rw [Finset.mem_product, Finset.mem_Icc, Finset.mem_Icc]
      omega
  calc (keysA gs).card ≤ (insert start (boundedCells gm)).card := Finset.card_le_card hsub
    _ ≤ (boundedCells gm).card + 1 := Finset.card_insert_le _ _
    _ = kmaxOf gm := by
        unfold boundedCells kmaxOf
        rw [Finset.card_product, Int.card_Icc, Int.card_Icc]
        congr 1
        have hw : (gm.width - 1 + 1 - 0).toNat = gm.width.toNat := by omega
        have hh : (gm.height - 1 + 1 - 0).toNat = gm.height.toNat := by omega
        rw [hw, hh]

theorem getNeighbors_walkable {gm : GameMap} {p q : GPos} (h : q ∈ getNeighbors gm p) :
    isWalkable gm q.1 q.2 = true :=
  (List.mem_filter.mp h).2

theorem getNeighbors_ne {gm : GameMap} {p q : GPos} (h : q ∈ getNeighbors gm p) : q ≠ p := by
  obtain ⟨d, hd, rfl⟩ := List.mem_map.mp (List.mem_filter.mp h).1
  have hall : ∀ d ∈ nbrDeltas, d ≠ ((0 : ℤ), (0 : ℤ)) := by decide
  have hd0 := hall d hd
  intro heq
  apply hd0
  have h1 : p.1 + d.1 = p.1 := congrArg Prod.fst heq
  have h2 : p.2 + d.2 = p.2 := congrArg Prod.snd heq
  have hd1 : d.1 = 0 := by omega
  have hd2 : d.2 = 0 := by omega
  obtain ⟨d1, d2⟩ := d
  simp_all

theorem stepRel_of_mem {gm : GameMap} {p q : GPos} (h : q ∈ getNeighbors gm p) :
    stepRel gm p q := h

theorem minEntryOf_mem (h : ℕ × GPos) (t : List (ℕ × GPos)) : minEntryOf h t ∈ h :: t := by
  induction t generalizing h with
  | nil => simp [minEntryOf]
  | cons y t ih =>
    have hstep : minEntryOf h (y :: t) = minEntryOf (if entryLe h y then h else y) t := rfl
    rw [hstep]
    rcases List.mem_cons.mp (ih (if entryLe h y then h else y)) with heq | hmem2
    · rw [heq]
      split
      · exact List.mem_cons_self _ _
      · simp
    · simp only [List.mem_cons]
      exact Or.inr (Or.inr hmem2)

theorem popMin_none {l : List (ℕ × GPos)} (h : popMin l = none) : l = [] := by
  cases l with
  | nil => rfl
  | cons x t => simp [popMin] at h

theorem popMin_some {l : List (ℕ × GPos)} {e : ℕ × GPos} {rest : List (ℕ × GPos)}
    (h : popMin l = some (e, rest)) :
    e ∈ l ∧ rest = l.erase e ∧ rest.length + 1 = l.length
    ∧ (∀ x ∈ rest, x ∈ l) ∧ (∀ x ∈ l, x ≠ e → x ∈ rest) := by
  cases l with
  | nil => simp [popMin] at h
  | cons x t =>
    simp only [popMin, Option.some.injEq, Prod.mk.injEq] at h
    obtain ⟨he, hrest⟩ := h
    have hmem : e ∈ x :: t := he ▸ minEntryOf_mem x t
    subst hrest
    subst he
    refine ⟨hmem, rfl, ?_, fun y hy => List.mem_of_mem_erase hy,
      fun y hy hne => (List.mem_erase_of_ne hne).mpr hy⟩
    rw [List.length_erase_of_mem hmem]
    have : 0 < (x :: t).length := by simp
    omega

theorem relaxNeighbor_noop {endp cur : GPos} {st : AState} {nb : GPos} {g0 : ℕ}
    (h : lookupA st.gs nb = some g0)
    (hng : ¬((lookupA st.gs cur).getD 0 + 1 < g0)) :
    relaxNeighbor endp cur st nb = st := by
  unfold relaxNeighbor
  rw [h]
  simp only [decide_eq_false hng]
  rfl

theorem relaxNeighbor_push_fresh {endp cur : GPos} {st : AState} {nb : GPos}
    (h : lookupA st.gs nb = none) :
    relaxNeighbor endp cur st nb = pushState endp cur st nb := by
  unfold relaxNeighbor
  rw [h]
  rfl

theorem relaxNeighbor_push_shadow {endp cur : GPos} {st : AState} {nb : GPos} {g0 : ℕ}
    (h : lookupA st.gs nb = some g0)
    (hlt : (lookupA st.gs cur).getD 0 + 1 < g0) :
    relaxNeighbor endp cur st nb = pushState endp cur st nb := by
  unfold relaxNeighbor
  rw [h]
  simp only [decide_eq_true hlt]
  rfl

theorem frontierPos_pushState (endp cur : GPos) (st : AState) (nb : GPos) :
    frontierPos (pushState endp cur st nb) = nb :: frontierPos st := rfl

theorem push_preserves {gm : GameMap} {endp start cur : GPos} {st : AState}
    (hinv : AInvAux gm endp start cur st)
    (hcur : cur ∈ keysA st.gs)
    {nb : GPos} (hnb : nb ∈ getNeighbors gm cur)
    (hg : ∀ g0, lookupA st.gs nb = some g0 → (lookupA st.gs cur).getD 0 + 1 < g0) :
    AInvAux gm endp start cur (pushState endp cur st nb)
    ∧ keysA st.gs ⊆ keysA (pushState endp cur st nb).gs
    ∧ (∀ p ∈ frontierPos st, p ∈ frontierPos (pushState endp cur st nb))
    ∧ aMeasure gm (pushState endp cur st nb) ≤ aMeasure gm st
    ∧ nb ∈ keysA (pushState endp cur st nb).gs := by
  obtain ⟨gcur, hgcur⟩ := mem_keysA.mp hcur
  have hnbcur : nb ≠ cur := getNeighbors_ne hnb
  have htg : (lookupA st.gs cur).getD 0 + 1 = gcur + 1 := by rw [hgcur]; rfl
  have hkeys : keysA (pushState endp cur st nb).gs = insert nb (keysA st.gs) :=
    keysA_insertA _ _ _
  have hlnb : lookupA (pushState endp cur st nb).gs nb
      = some ((lookupA st.gs cur).getD 0 + 1) := lookupA_insertA_self _ _ _
  have hlne : ∀ p : GPos, p ≠ nb →
      lookupA (pushState endp cur st nb).gs p = lookupA st.gs p :=
    fun p hp => lookupA_insertA_ne _ _ _ hp
  have hcfnb : lookupA (pushState endp cur st nb).cf nb = some cur :=
    lookupA_insertA_self _ _ _
  have hcfne : ∀ p : GPos, p ≠ nb →
      lookupA (pushState endp cur st nb).cf p = lookupA st.cf p :=
    fun p hp => lookupA_insertA_ne _ _ _ hp
  have hsubset : keysA st.gs ⊆ keysA (pushState endp cur st nb).gs := by
    rw [hkeys]; exact Finset.subset_insert _ _
  have hfr : ∀ p ∈ frontierPos st, p ∈ frontierPos (pushState endp cur st nb) := by
    intro p hp
    rw [frontierPos_pushState]
    exact List.mem_cons_of_mem _ hp
  have hnbmem : nb ∈ keysA (pushState endp cur st nb).gs := by
    rw [hkeys]; exact Finset.mem_insert_self _ _
  have hgboundcur : gcur < (keysA st.gs).card := hinv.gBound cur gcur hgcur
  have hkeysOk : ∀ p ∈ keysA (pushState endp cur st nb).gs,
      p = start ∨ isWalkable gm p.1 p.2 = true := by
    intro p hp
    rw [hkeys] at hp
    rcases Finset.mem_insert.mp hp with rfl | hp2
    · exact Or.inr (getNeighbors_walkable hnb)
    · exact hinv.keysOk p hp2
  have hcard_le : (keysA (pushState endp cur st nb).gs).card ≤ kmaxOf gm :=
    keysA_card_le hkeysOk
  have hAinv : AInvAux gm endp start cur (pushState endp cur st nb) := by
    refine ⟨hsubset hinv.startMem, ?_, ?_, ?_, ?_, ?_, ?_, ?_, hkeysOk⟩
    · intro p hp
      rw [hkeys] at hp
      rcases Finset.mem_insert.mp hp with rfl | hp2
      · exact Relation.ReflTransGen.tail (hinv.reach cur hcur) (stepRel_of_mem hnb)
      · exact hinv.reach p hp2
    · intro p hp
      rw [hkeys] at hp
      rcases Finset.mem_insert.mp hp with rfl | hp2
      · exact Or.inr (Or.inl (by rw [frontierPos_pushState]; exact List.mem_cons_self _ _))
      · rcases hinv.expanded p hp2 with h1 | h1 | h1
        · exact Or.inl h1
        · exact Or.inr (Or.inl (hfr p h1))
        · exact Or.inr (Or.inr (fun q hq => hsubset (h1 q hq)))
    · intro p hp
      rw [frontierPos_pushState] at hp
      rcases List.mem_cons.mp hp with rfl | hp2
      · exact hnbmem
      · exact hsubset (hinv.frontierKeys p hp2)
    · intro hp
      rw [hkeys] at hp
      rcases Finset.mem_insert.mp hp with rfl | hp2
      · rw [frontierPos_pushState]
        exact List.mem_cons_self _ _
      · exact hfr endp (hinv.endFrontier hp2)
    · intro p q hpq
      by_cases hpnb : p = nb
      · subst hpnb
        rw [hcfnb] at hpq
        cases hpq
        refine ⟨hsubset hcur, hnb, (lookupA st.gs cur).getD 0 + 1, gcur, hlnb, ?_, ?_⟩
        · rw [hlne cur (Ne.symm hnbcur)]
          exact hgcur
        · rw [htg]
          omega
      · rw [hcfne p hpnb] at hpq
        obtain ⟨hq1, hq2, gp, gq, hgp, hgq, hlt⟩ := hinv.cfSpec p q hpq
        by_cases hqnb : q = nb
        · have hglt : (lookupA st.gs cur).getD 0 + 1 < gq := by
            apply hg
            rw [← hqnb]
            exact hgq
          refine ⟨hsubset hq1, hq2, gp, (lookupA st.gs cur).getD 0 + 1, ?_, ?_, by omega⟩
          · rw [hlne p hpnb]
            exact hgp
          · rw [hqnb]
            exact hlnb
        · refine ⟨hsubset hq1, hq2, gp, gq, ?_, ?_, hlt⟩
          · rw [hlne p hpnb]
            exact hgp
          · rw [hlne q hqnb]
            exact hgq
    · intro p hp hnone
      by_cases hpnb : p = nb
      · rw [hpnb, hcfnb] at hnone
        cases hnone
      · rw [hcfne p hpnb] at hnone
        rw [hkeys] at hp
        rcases Finset.mem_insert.mp hp with rfl | hp2
        · exact absurd rfl hpnb
        · exact hinv.cfNone p hp2 hnone
    · intro p g hpg
      by_cases hpnb : p = nb
      · rw [hpnb, hlnb] at hpg
        injection hpg with hX
        subst hX
        cases hnb0 : lookupA st.gs nb with
        | none =>
          have hfresh : nb ∉ keysA st.gs := by
            intro hmem
            obtain ⟨v, hv⟩ := mem_keysA.mp hmem
            rw [hnb0] at hv
            cases hv
          rw [hkeys, Finset.card_insert_of_not_mem hfresh, htg]
          omega
        | some g0 =>
          have hglt := hg g0 hnb0
          have hg0 : g0 < (keysA st.gs).card := hinv.gBound nb g0 hnb0
          have hmemnb : nb ∈ keysA st.gs := mem_keysA.mpr ⟨g0, hnb0⟩
          rw [hkeys, Finset.insert_eq_self.mpr hmemnb]
          omega
      · rw [hlne p hpnb] at hpg
        have := hinv.gBound p g hpg
        have : (keysA st.gs).card ≤ (keysA (pushState endp cur st nb).gs).card := by
          rw [hkeys]
          exact Finset.card_le_card (Finset.subset_insert _ _)
        omega
  refine ⟨hAinv, hsubset, hfr, ?_, hnbmem⟩
  show aMeasure gm (pushState endp cur st nb) ≤ aMeasure gm st
  cases hnb0 : lookupA st.gs nb with
  | none =>
    have hfresh : nb ∉ keysA st.gs := by
      intro hmem
      obtain ⟨v, hv⟩ := mem_keysA.mp hmem
      rw [hnb0] at hv
      cases hv
    have hgs : gsumL (pushState endp cur st nb).gs
        = gsumL st.gs + ((lookupA st.gs cur).getD 0 + 1) :=
      gsumL_insertA_fresh _ hfresh
    have hcard : (keysA (pushState endp cur st nb).gs).card = (keysA st.gs).card + 1 := by
      rw [hkeys, Finset.card_insert_of_not_mem hfresh]
    have hcardK : (keysA st.gs).card + 1 ≤ kmaxOf gm := by
      rw [← hcard]
      exact hcard_le
    have hmul : 2 * kmaxOf gm * (kmaxOf gm - (keysA st.gs).card)
        = 2 * kmaxOf gm * (kmaxOf gm - ((keysA st.gs).card + 1)) + 2 * kmaxOf gm := by
      have hA : kmaxOf gm - (keysA st.gs).card
          = (kmaxOf gm - ((keysA st.gs).card + 1)) + 1 := by omega
      rw [hA, Nat.mul_add, Nat.mul_one]
    have htgle : (lookupA st.gs cur).getD 0 + 1 ≤ (keysA st.gs).card := by
      rw [htg]
      omega
    unfold aMeasure gsum
    rw [hgs, hcard, hmul]
    show st.frontier.length + 1 + _ + _ ≤ _
    generalize 2 * kmaxOf gm * (kmaxOf gm - ((keysA st.gs).card + 1)) = t
    omega
  | some g0 =>
    have hglt := hg g0 hnb0
    have hgs : gsumL (pushState endp cur st nb).gs + g0
        = gsumL st.gs + ((lookupA st.gs cur).getD 0 + 1) :=
      gsumL_insertA_shadow hnb0
    have hmemnb : nb ∈ keysA st.gs := mem_keysA.mpr ⟨g0, hnb0⟩
    have hcard : (keysA (pushState endp cur st nb).gs).card = (keysA st.gs).card := by
      rw [hkeys, Finset.insert_eq_self.mpr hmemnb]
    unfold aMeasure gsum
    rw [hcard]
    show st.frontier.length + 1 + _ + _ ≤ _
    generalize 2 * kmaxOf gm * (kmaxOf gm - (keysA st.gs).card) = t
    omega

theorem relaxNeighbor_aux {gm : GameMap} {endp start cur : GPos} {st : AState}
    (hinv : AInvAux gm endp start cur st)
    (hcur : cur ∈ keysA st.gs)
    {nb : GPos} (hnb : nb ∈ getNeighbors gm cur) :
    AInvAux gm endp start cur (relaxNeighbor endp cur st nb)
    ∧ keysA st.gs ⊆ keysA (relaxNeighbor endp cur st nb).gs
    ∧ (∀ p ∈ frontierPos st, p ∈ frontierPos (relaxNeighbor endp cur st nb))
    ∧ aMeasure gm (relaxNeighbor endp cur st nb) ≤ aMeasure gm st
    ∧ nb ∈ keysA (relaxNeighbor endp cur st nb).gs := by
  cases hnb0 : lookupA st.gs nb with
  | none =>
    rw [relaxNeighbor_push_fresh hnb0]
    refine push_preserves hinv hcur hnb ?_
    intro g0 hsome
    rw [hnb0] at hsome
    cases hsome
  | some g0 =>
    by_cases hlt : (lookupA st.gs cur).getD 0 + 1 < g0
    · rw [relaxNeighbor_push_shadow hnb0 hlt]
      refine push_preserves hinv hcur hnb ?_
      intro g1 hsome
      rw [hnb0] at hsome
      injection hsome with h1
      rw [← h1]
      exact hlt
    · rw [relaxNeighbor_noop hnb0 hlt]
      exact ⟨hinv, fun p hp => hp, fun p hp => hp, le_refl _, mem_keysA.mpr ⟨g0, hnb0⟩⟩

theorem foldRelax_aux {gm : GameMap} {endp start cur : GPos} :
    ∀ (l : List GPos) (st : AState),
    AInvAux gm endp start cur st →
    cur ∈ keysA st.gs →
    (∀ q ∈ l, q ∈ getNeighbors gm cur) →
    AInvAux gm endp start cur (l.foldl (relaxNeighbor endp cur) st)
    ∧ keysA st.gs ⊆ keysA (l.foldl (relaxNeighbor endp cur) st).gs
    ∧ (∀ p ∈ frontierPos st, p ∈ frontierPos (l.foldl (relaxNeighbor endp cur) st))
    ∧ aMeasure gm (l.foldl (relaxNeighbor endp cur) st) ≤ aMeasure gm st
    ∧ (∀ q ∈ l, q ∈ keysA (l.foldl (relaxNeighbor endp cur) st).gs) := by
  intro l
  induction l with
  | nil =>
    intro st hinv hcur _
    exact ⟨hinv, fun p hp => hp, fun p hp => hp, le_refl _, by simp⟩
  | cons q t ih =>
    intro st hinv hcur hql
    have hq := hql q (List.mem_cons_self q t)
    obtain ⟨hinv1, hsub1, hfr1, hmeas1, hqk1⟩ := relaxNeighbor_aux hinv hcur hq
    have hcur1 : cur ∈ keysA (relaxNeighbor endp cur st q).gs := hsub1 hcur
    obtain ⟨hinv2, hsub2, hfr2, hmeas2, hcov2⟩ :=
      ih (relaxNeighbor endp cur st q) hinv1 hcur1
        (fun r hr => hql r (List.mem_cons_of_mem q hr))
    rw [List.foldl_cons]
    refine ⟨hinv2, fun p hp => hsub2 (hsub1 hp), fun p hp => hfr2 p (hfr1 p hp),
      le_trans hmeas2 hmeas1, ?_⟩
    intro r hr
    rcases List.mem_cons.mp hr with rfl | hrt
    · exact hsub2 hqk1
    · exact hcov2 r hrt

theorem pop_aux {gm : GameMap} {endp start : GPos} {st : AState} {e : ℕ × GPos}
    {rest : List (ℕ × GPos)}
    (hinv : AInv gm endp start st)
    (hpop : popMin st.frontier = some (e, rest))
    (hne : e.2 ≠ endp) :
    AInvAux gm endp start e.2 { st with frontier := rest }
    ∧ e.2 ∈ keysA st.gs
    ∧ aMeasure gm { st with frontier := rest } + 1 = aMeasure gm st := by
  obtain ⟨hmem, hrestE, hlen, hsubset, hkeep⟩ := popMin_some hpop
  have he2 : e.2 ∈ frontierPos st := List.mem_map.mpr ⟨e, hmem, rfl⟩
  have he2k : e.2 ∈ keysA st.gs := hinv.frontierKeys e.2 he2
  refine ⟨⟨hinv.startMem, hinv.reach, ?_, ?_, ?_, hinv.cfSpec, hinv.cfNone, hinv.gBound,
    hinv.keysOk⟩, he2k, ?_⟩
  · intro p hp
    rcases hinv.expanded p hp with hfr | hcl
    · obtain ⟨x, hx, hxp⟩ := List.mem_map.mp hfr
      by_cases hxe : x = e
      · left
        rw [← hxp, hxe]
      · right
        left
        exact List.mem_map.mpr ⟨x, hkeep x hx hxe, hxp⟩
    · right
      right
      exact hcl
  · intro p hp
    obtain ⟨x, hx, hxp⟩ := List.mem_map.mp hp
    exact hinv.frontierKeys p (List.mem_map.mpr ⟨x, hsubset x hx, hxp⟩)
  · intro hendk
    obtain ⟨x, hx, hxp⟩ := List.mem_map.mp (hinv.endFrontier hendk)
    have hxe : x ≠ e := by
      intro h
      apply hne
      rw [← h]
      exact hxp
    exact List.mem_map.mpr ⟨x, hkeep x hx hxe, hxp⟩
  · unfold aMeasure gsum
    dsimp only
    omega

theorem astarStep_aux {gm : GameMap} {endp start : GPos} {st : AState} {e : ℕ × GPos}
    {rest : List (ℕ × GPos)}
    (hinv : AInv gm endp start st)
    (hpop : popMin st.frontier = some (e, rest))
    (hne : e.2 ≠ endp) :
    AInv gm endp start
      ((getNeighbors gm e.2).foldl (relaxNeighbor endp e.2) { st with frontier := rest })
    ∧ aMeasure gm
      ((getNeighbors gm e.2).foldl (relaxNeighbor endp e.2) { st with frontier := rest })
      < aMeasure gm st := by
  obtain ⟨hmid, he2k, hmeas⟩ := pop_aux hinv hpop hne
  have he2m : e.2 ∈ keysA ({ st with frontier := rest } : AState).gs := he2k
  obtain ⟨hinv2, hsub2, hfr2, hmeas2, hcov2⟩ :=
    foldRelax_aux (getNeighbors gm e.2) { st with frontier := rest } hmid he2m
      (fun q hq => hq)
  refine ⟨⟨hinv2.startMem, hinv2.reach, ?_, hinv2.frontierKeys, hinv2.endFrontier,
    hinv2.cfSpec, hinv2.cfNone, hinv2.gBound, hinv2.keysOk⟩, by omega⟩
  intro p hp
  rcases hinv2.expanded p hp with rfl | hrest2
  · right
    intro q hq
    exact hcov2 q hq
  · exact hrest2

theorem closure_reach {gm : GameMap} {start : GPos} {K : Finset GPos}
    (hstart : start ∈ K)
    (hclosed : ∀ p ∈ K, ∀ q ∈ getNeighbors gm p, q ∈ K)
    {e : GPos} (hr : reachable gm start e) : e ∈ K := by
  induction hr with
  | refl => exact hstart
  | tail h1 h2 ih => exact hclosed _ ih _ h2

theorem reconstructPath_ok {gm : GameMap} {gs : List (GPos × ℕ)} {cf : List (GPos × GPos)}
    {start : GPos} :
    ∀ (fuel : ℕ) (cur : GPos) (acc : List GPos) (gc : ℕ),
    (∀ p q, lookupA cf p = some q → q ∈ keysA gs ∧ p ∈ getNeighbors gm q ∧
      ∃ gp gq, lookupA gs p = some gp ∧ lookupA gs q = some gq ∧ gq < gp) →
    (∀ p ∈ keysA gs, lookupA cf p = none → p = start) →
    lookupA gs cur = some gc → gc < fuel →
    List.Chain' (stepRel gm) (cur :: acc) →
    ∃ p, reconstructPath cf start fuel cur acc = some p ∧ p ≠ []
      ∧ p.head? = some start ∧ p.getLast? = (cur :: acc).getLast?
      ∧ List.Chain' (stepRel gm) p := by
  intro fuel
  induction fuel with
  | zero =>
    intro cur acc gc _ _ _ hlt _
    omega
  | succ n ih =>
    intro cur acc gc hcf hcfn hgc hlt hch
    cases hcur : lookupA cf cur with
    | none =>
      have hmemc : cur ∈ keysA gs := mem_keysA.mpr ⟨gc, hgc⟩
      have hstart : cur = start := hcfn cur hmemc hcur
      refine ⟨start :: acc, ?_, by simp, by simp, ?_, ?_⟩
      · simp [reconstructPath, hcur]
      · rw [← hstart]
      · rw [← hstart]
        exact hch
    | some prev =>
      obtain ⟨hprevk, hcurn, gp, gq, hgp, hgq, hglt⟩ := hcf cur prev hcur
      have hgpgc : gp = gc := by
        rw [hgc] at hgp
        injection hgp with h
        exact h.symm
      have hch2 : List.Chain' (stepRel gm) (prev :: cur :: acc) :=
        List.chain'_cons.mpr ⟨hcurn, hch⟩
      obtain ⟨p, hrp, hnil, hhead, hlast, hchain⟩ :=
        ih prev (cur :: acc) gq hcf hcfn hgq (by omega) hch2
      refine ⟨p, ?_, hnil, hhead, ?_, hchain⟩
      · simp only [reconstructPath, hcur]
        exact hrp
      · rw [hlast, List.getLast?_cons_cons]

theorem astarLoop_unreach {gm : GameMap} {endp start : GPos} (rfuel : ℕ) :
    ∀ fuel st, AInv gm endp start st → aMeasure gm st < fuel →
    ¬ reachable gm start endp →
    astarLoop gm endp start rfuel fuel st = some [] := by
  intro fuel
  induction fuel with
  | zero =>
    intro st _ hm _
    omega
  | succ n ih =>
    intro st hinv hm hnr
    cases hpop : popMin st.frontier with
    | none => simp [astarLoop, hpop]
    | some er =>
      obtain ⟨e, rest⟩ := er
      have he2k : e.2 ∈ keysA st.gs :=
        hinv.frontierKeys e.2 (List.mem_map.mpr ⟨e, (popMin_some hpop).1, rfl⟩)
      have hne : e.2 ≠ endp := by
        intro h
        exact hnr (h ▸ hinv.reach e.2 he2k)
      obtain ⟨hinv2, hm2⟩ := astarStep_aux hinv hpop hne
      have hres := ih _ hinv2 (by omega) hnr
      simp only [astarLoop, hpop]
      rw [if_neg hne]
      exact hres

theorem astarLoop_reach {gm : GameMap} {endp start : GPos} :
    ∀ fuel st, AInv gm endp start st → aMeasure gm st < fuel →
    reachable gm start endp →
    ∃ p, astarLoop gm endp start (kmaxOf gm) fuel st = some p
      ∧ validPath gm start endp p := by
  intro fuel
  induction fuel with
  | zero =>
    intro st _ hm _
    omega
  | succ n ih =>
    intro st hinv hm hr
    cases hpop : popMin st.frontier with
    | none =>
      exfalso
      have hfr : st.frontier = [] := popMin_none hpop
      have hclosed : ∀ p ∈ keysA st.gs, ∀ q ∈ getNeighbors gm p, q ∈ keysA st.gs := by
        intro p hp
        rcases hinv.expanded p hp with hfr2 | hcl
        · simp [frontierPos, hfr] at hfr2
        · exact hcl
      have hendk : endp ∈ keysA st.gs := closure_reach hinv.startMem hclosed hr
      have hef := hinv.endFrontier hendk
      simp [frontierPos, hfr] at hef
    | some er =>
      obtain ⟨e, rest⟩ := er
      by_cases hne : e.2 = endp
      · have he2k : e.2 ∈ keysA st.gs :=
          hinv.frontierKeys e.2 (List.mem_map.mpr ⟨e, (popMin_some hpop).1, rfl⟩)
        obtain ⟨gc, hgc⟩ := mem_keysA.mp he2k
        have hcard := keysA_card_le hinv.keysOk
        have hglt : gc < kmaxOf gm := lt_of_lt_of_le (hinv.gBound e.2 gc hgc) hcard
        obtain ⟨p, hrp, hnil, hhead, hlast, hchain⟩ :=
          reconstructPath_ok (kmaxOf gm) e.2 [] gc hinv.cfSpec hinv.cfNone
            hgc hglt (List.chain'_singleton _)
        refine ⟨p, ?_, hnil, hhead, ?_, hchain⟩
        · simp only [astarLoop, hpop]
          rw [if_pos hne]
          exact hrp
        · rw [hlast, List.getLast?_singleton, hne]
      · obtain ⟨hinv2, hm2⟩ := astarStep_aux hinv hpop hne
        obtain ⟨p, hp1, hp2⟩ := ih _ hinv2 (by omega) hr
        refine ⟨p, ?_, hp2⟩
        simp only [astarLoop, hpop]
        rw [if_neg hne]
        exact hp1

theorem astarInit_inv (gm : GameMap) (endp start : GPos) :
    AInv gm endp start (astarInit endp start) := by
  have hkeys : keysA (astarInit endp start).gs = {start} := by
    simp [astarInit, keysA]
  refine ⟨?_, ?_, ?_, ?_, ?_, ?_, ?_, ?_, ?_⟩
  · rw [hkeys]
    exact Finset.mem_singleton_self start
  · intro p hp
    rw [hkeys, Finset.mem_singleton] at hp
    subst hp
    exact Relation.ReflTransGen.refl
  · intro p hp
    left
    rw [hkeys, Finset.mem_singleton] at hp
    simp [frontierPos, astarInit, hp]
  · intro p hp
    simp only [frontierPos, astarInit, List.map_cons, List.map_nil, List.mem_singleton] at hp
    rw [hkeys, hp]
    exact Finset.mem_singleton_self start
  · intro h
    rw [hkeys, Finset.mem_singleton] at h
    simp [frontierPos, astarInit, h]
  · intro p q h
    simp [astarInit, lookupA] at h
  · intro p hp _
    rw [hkeys, Finset.mem_singleton] at hp
    exact hp
  · intro p g h
    rw [hkeys]
    unfold astarInit lookupA at h
    split at h
    · injection h with h2
      simp
      omega
    · cases h
  · intro p hp
    left
    rw [hkeys, Finset.mem_singleton] at hp
    exact hp

theorem astarInit_measure (gm : GameMap) (endp start : GPos) :
    aMeasure gm (astarInit endp start) < astarFuel gm := by
  have hkeys : keysA (astarInit endp start).gs = {start} := by
    simp [astarInit, keysA]
  have hg : gsumL (astarInit endp start).gs = 0 := by
    unfold gsumL
    rw [hkeys, Finset.sum_singleton]
    simp [astarInit, lookupA]
  have hcard : (keysA (astarInit endp start).gs).card = 1 := by
    rw [hkeys]
    simp
  have hk : 1 ≤ kmaxOf gm := by
    unfold kmaxOf
    omega
  have hexp : 2 * kmaxOf gm * (kmaxOf gm - 1) + 2 * kmaxOf gm
      = 2 * kmaxOf gm * kmaxOf gm := by
    have h1 : kmaxOf gm - 1 + 1 = kmaxOf gm := Nat.sub_add_cancel hk
    calc 2 * kmaxOf gm * (kmaxOf gm - 1) + 2 * kmaxOf gm
        = 2 * kmaxOf gm * ((kmaxOf gm - 1) + 1) := (Nat.mul_succ _ _).symm
      _ = 2 * kmaxOf gm * kmaxOf gm := by rw [h1]
  unfold aMeasure gsum astarFuel
  rw [hg, hcard]
  have hlen : (astarInit endp start).frontier.length = 1 := rfl
  rw [hlen]
  omega

/-- C4: find_path returns the empty sequence when the end is not reachable
from the start through chains of moves onto walkable 8-adjacent tiles, and
otherwise a nonempty path from start to end whose every consecutive step
moves to a walkable 8-adjacent tile; the walkability of the start tile
itself is never checked (the counterexample shows a returned path whose
first coordinate is a non-walkable building tile). -/
theorem findPath_spec (gm : GameMap) (start endp : GPos) :
    (¬ reachable gm start endp → findPath gm start endp = [])
    ∧ (reachable gm start endp → validPath gm start endp (findPath gm start endp)) := by
  constructor
  · intro hnr
    unfold findPath
    rw [astarLoop_unreach (kmaxOf gm) (astarFuel gm) (astarInit endp start)
      (astarInit_inv gm endp start) (astarInit_measure gm endp start) hnr]
    rfl
  · intro hr
    obtain ⟨p, hp1, hp2⟩ := astarLoop_reach (astarFuel gm) (astarInit endp start)
      (astarInit_inv gm endp start) (astarInit_measure gm endp start) hr
    unfold findPath
    rw [hp1]
    exact hp2

/-- C4 counterexample: on the default 8 x 8 map, find_path from the
building-interior tile (5, 6) to the entrance (5, 5) returns the nonempty
path [(5, 6), (5, 5)] even though (5, 6) is not walkable, so the claim
that every consecutive pair of returned coordinates is walkable fails at
the start tile: A* never checks the start's own walkability. -/
theorem findPath_cex :
    findPath (defaultGameMap 8 8) (5, 6) (5, 5) = [(5, 6), (5, 5)]
    ∧ isWalkable (defaultGameMap 8 8) 5 6 = false := by
  decide

/-- Witness: (1, 1) is a walkable 8-neighbor of (0, 0) on the default
8 x 8 map, so the end is reachable and find_path returns a valid path. -/
theorem findPath_spec_witness :
    reachable (defaultGameMap 8 8) (0, 0) (1, 1)
    ∧ validPath (defaultGameMap 8 8) (0, 0) (1, 1)
      (findPath (defaultGameMap 8 8) (0, 0) (1, 1)) := by
  have hmem : ((1 : ℤ), (1 : ℤ)) ∈ getNeighbors (defaultGameMap 8 8) (0, 0) := by
    decide
  have hstep : stepRel (defaultGameMap 8 8) (0, 0) (1, 1) := hmem
  exact ⟨Relation.ReflTransGen.single hstep,
    (findPath_spec (defaultGameMap 8 8) (0, 0) (1, 1)).2
      (Relation.ReflTransGen.single hstep)⟩
